import Mathlib

/-!
Shallow embedding of the agent orchestration subsystem of SaffronAssistant
(desktop overlay assistant): the tool registry, the parallel tool executor,
the permission manager, the Claude streaming client, the turn execution loop
of `AgentSession`, and the `AgentManager` session multiplexer.

Sources embedded:
- `apps/desktop/src/main/agents/types.ts` (data model),
- `apps/desktop/src/main/agents/tool-registry.ts` (`ToolRegistry`),
- `tool-executor.ts` (`ToolExecutor`),
- `permission-manager.ts` (`PermissionManager`),
- `services/claude-api.service.ts` (`ClaudeAPIService.streamWithTools`),
- `agent-session.ts` (`AgentSession.executeTurnStreaming`, `abort`,
  `calculateCost`),
- `agent-manager.ts` (`AgentManager.sendMessageStreaming`),
- `config/app-config.ts` (pricing constants).

Modelling conventions:
- `Record<string, any>` tool inputs and JSON payloads are modelled as opaque
  `String` values; `JSON.parse` validity is an oracle parameter.
- Timestamps (`Date.now()`) carry no information used by the modelled logic
  and are omitted from `Message`.
- Async generators become pure functions from oracles (the per-model-call
  event lists, the per-call approval responses) to the finite list of yielded
  events plus the final state; an exception escaping a generator is the
  `TurnOutcome.thrown` outcome.
- Floating-point cost arithmetic is modelled over `ℚ`.
- The turn is modelled for executions in which the abort signal is never
  triggered mid-turn (the `if (signal.aborted) return` checks are no-ops);
  the `abort()` operation itself is modelled separately on session state.
-/

/-- Permission classes from `types.ts`: `'always' | 'ask' | 'never'`. -/
inductive PermissionLevel
  | always
  | ask
  | never
deriving DecidableEq, Repr

/-- Risk levels from `types.ts`: `'safe' | 'moderate' | 'dangerous'`. -/
inductive RiskLevel
  | safe
  | moderate
  | dangerous
deriving DecidableEq, Repr

/-- `ToolPermission` from `types.ts`. -/
structure ToolPermission where
  permission : PermissionLevel
  risk_level : RiskLevel
deriving DecidableEq, Repr

/-- `ToolCall` from `types.ts`; the structured `input` object is modelled as
an opaque string. -/
structure ToolCall where
  id : String
  name : String
  input : String
deriving DecidableEq, Repr

/-- `ToolResult` from `types.ts`. -/
structure ToolResult where
  tool_call_id : String
  success : Bool
  output : Option String := none
  images : Option (List String) := none
  error : Option String := none
deriving DecidableEq, Repr

/-- `ToolOutput` from `types.ts`: `string | { text, images? }`. -/
inductive ToolOutput
  | plain (s : String)
  | rich (text : String) (images : Option (List String))
deriving DecidableEq, Repr

/-- `ToolDefinition` from `types.ts`; the input schema object is opaque. -/
structure ToolDefinition where
  name : String
  description : String
  input_schema : String
deriving DecidableEq, Repr

/-- `Tool` from `types.ts`: a registered tool with its handler.  A handler
that throws is modelled by `Except.error` carrying the error message. -/
structure Tool where
  name : String
  description : String
  input_schema : String
  permission : ToolPermission
  execute : String → Except String ToolOutput

/-- `Message` from `types.ts` (timestamps omitted, see header). -/
inductive Message
  | user (content : String) (images : List String)
  | assistant (content : String) (tool_calls : Option (List ToolCall))
  | tool (tool_results : List ToolResult)
deriving DecidableEq, Repr

/-- `StreamEvent` from `types.ts`. -/
inductive StreamEvent
  | text (content : String)
  | thinking (content : String)
  | tool_call (tc : ToolCall)
  | tool_result (tool_call_id : String) (tool_name : String) (result : ToolResult)
  | error (msg : String)
  | usage (input_tokens output_tokens : Nat)
deriving DecidableEq, Repr

/-- `ApprovalResponse` from `types.ts`; `unexpected` stands for a response
object whose `type` tag is none of the three declared ones (the manager warns
and denies for those). -/
inductive ApprovalResponse
  | approved
  | denied (reason : Option String)
  | modified (modified_input : String)
  | unexpected
deriving DecidableEq, Repr

/-- The value `PermissionManager.checkPermission` resolves to. -/
inductive PermDecision
  | allowed
  | denied
deriving DecidableEq, Repr

/-- `AgentProfile` from `types.ts`, restricted to the fields the modelled
code reads (`tool_permissions`, `max_iterations`, `id`). -/
structure AgentProfile where
  id : String
  tool_permissions : List (String × PermissionLevel)
  max_iterations : Nat

/-- `AgentStatus` from `agent-session.ts`. -/
inductive AgentStatus
  | idle
  | thinking
  | executing_tools
  | waiting_approval
deriving DecidableEq, Repr

/-- Pricing constants from `config/app-config.ts` (`AppConfig.ai.pricing`). -/
structure Pricing where
  inputPer1M : ℚ
  outputPer1M : ℚ

/-- `AppConfig.ai.pricing` — Sonnet 4.5 rates. -/
def AppConfig.pricing : Pricing := { inputPer1M := 3, outputPer1M := 15 }

/-- `tool_permissions[name]` lookup (a JS object keyed by tool name). -/
def lookupPermission (perms : List (String × PermissionLevel)) (name : String) :
    Option PermissionLevel :=
  (perms.find? (fun p => decide (p.1 = name))).map (·.2)

/-- The tool registry: `tools: Map<string, Tool>` from `tool-registry.ts`.
`register` rejects duplicates, so the name-keyed map is an association list
with distinct keys; lookups take the first (only) match. -/
abbrev ToolRegistry := List Tool

/-- `ToolRegistry.get`. -/
def ToolRegistry.get (reg : ToolRegistry) (name : String) : Option Tool :=
  reg.find? (fun t => decide (t.name = name))

/-- `ToolRegistry.has`. -/
def ToolRegistry.hasTool (reg : ToolRegistry) (name : String) : Bool :=
  (ToolRegistry.get reg name).isSome

/-- `ToolRegistry.getPermission` — throws `Unknown tool: "name"` when the
tool is not registered. -/
def ToolRegistry.getPermission (reg : ToolRegistry) (name : String) :
    Except String ToolPermission :=
  match ToolRegistry.get reg name with
  | none => Except.error ("Unknown tool: \"" ++ name ++ "\"")
  | some t => Except.ok t.permission

/-- `ToolRegistry.execute` — dispatches to the handler; throws
`Unknown tool: "name"` when the tool is not registered. -/
def ToolRegistry.execute (reg : ToolRegistry) (name : String) (input : String) :
    Except String ToolOutput :=
  match ToolRegistry.get reg name with
  | none => Except.error ("Unknown tool: \"" ++ name ++ "\"")
  | some t => t.execute input

/-- `ToolExecutor.executeToolCall`: invoke the registry and convert any
thrown error into a failed `ToolResult` (`error.message || 'Unknown error'`). -/
def ToolExecutor.executeToolCall (reg : ToolRegistry) (tc : ToolCall) : ToolResult :=
  match ToolRegistry.execute reg tc.name tc.input with
  | Except.ok (ToolOutput.plain s) =>
      { tool_call_id := tc.id, success := true, output := some s }
  | Except.ok (ToolOutput.rich t imgs) =>
      { tool_call_id := tc.id, success := true, output := some t, images := imgs }
  | Except.error msg =>
      { tool_call_id := tc.id, success := false,
        error := some (if msg = "" then "Unknown error" else msg) }

/-- `ToolExecutor.executeParallel`: `Promise.allSettled` over the per-call
executions, mapped back by index, so the output order is the input order
independent of completion order.  `executeToolCall` never rejects, so the
`rejected` fallback branch of the source is unreachable. -/
def ToolExecutor.executeParallel (reg : ToolRegistry) (toolCalls : List ToolCall) :
    List ToolResult :=
  toolCalls.map (ToolExecutor.executeToolCall reg)

/-- Outcome of one `checkPermission` call: the decision, whether an approval
request was sent to the renderer, and the call object afterwards (a
`modified` response mutates `toolCall.input` in place). -/
structure CheckResult where
  decision : PermDecision
  promptIssued : Bool
  call : ToolCall
deriving DecidableEq, Repr

/-- `PermissionManager.promptUser`: send an approval request and wait for the
matching response or the timeout.  The oracle value `none` is the timeout
case; `modified` rewrites the input of the call object in place. -/
def PermissionManager.promptUser (resp : Option ApprovalResponse) (tc : ToolCall) :
    CheckResult :=
  match resp with
  | some ApprovalResponse.approved => { decision := PermDecision.allowed, promptIssued := true, call := tc }
  | some (ApprovalResponse.denied _) => { decision := PermDecision.denied, promptIssued := true, call := tc }
  | some (ApprovalResponse.modified newInput) =>
      { decision := PermDecision.allowed, promptIssued := true, call := { tc with input := newInput } }
  | some ApprovalResponse.unexpected => { decision := PermDecision.denied, promptIssued := true, call := tc }
  | none => { decision := PermDecision.denied, promptIssued := true, call := tc }

/-- `this.profile.tool_permissions[toolCall.name] || 'ask'`: the permission
class the profile declares for a tool name, defaulting to `ask`. -/
def permClassOf (profile : AgentProfile) (name : String) : PermissionLevel :=
  (lookupPermission profile.tool_permissions name).getD PermissionLevel.ask

/-- `toolPerm?.risk_level || 'moderate'`: the registered risk level of a tool
name, `moderate` when the tool is not registered. -/
def riskOf (reg : ToolRegistry) (name : String) : RiskLevel :=
  match ToolRegistry.get reg name with
  | some t => t.permission.risk_level
  | none => RiskLevel.moderate

/-- `PermissionManager.checkPermission`.  Order of consultation, as in the
source: profile permission class (default `ask`); `always` and `never` short
circuit; for `ask`, the auto-approve-safe flag together with the registered
risk level (`'moderate'` when the tool is unregistered); otherwise
`getToolDefinition` is built — which throws `Unknown tool: name` for an
unregistered tool — and the user is prompted. -/
def PermissionManager.checkPermission (profile : AgentProfile) (reg : ToolRegistry)
    (autoApproveSafe : Bool) (resp : Option ApprovalResponse) (tc : ToolCall) :
    Except String CheckResult :=
  match permClassOf profile tc.name with
  | PermissionLevel.always =>
      Except.ok { decision := PermDecision.allowed, promptIssued := false, call := tc }
  | PermissionLevel.never =>
      Except.ok { decision := PermDecision.denied, promptIssued := false, call := tc }
  | PermissionLevel.ask =>
      if autoApproveSafe ∧ riskOf reg tc.name = RiskLevel.safe then
        Except.ok { decision := PermDecision.allowed, promptIssued := false, call := tc }
      else
        match ToolRegistry.get reg tc.name with
        | none => Except.error ("Unknown tool: " ++ tc.name)
        | some _ => Except.ok (PermissionManager.promptUser resp tc)

/-- Modelled from the spec: `PermissionManager.abortAll` is called from
`AgentSession.abort` (agent-session.ts:495) but no implementation of it is
present under the sources; per the spec it "immediately denies every pending
request (used on turn cancellation) without waiting for timeouts".  Given the
pending-approval map it returns the denial resolution delivered to each
pending request and the emptied map. -/
def PermissionManager.abortAll (pending : List (String × ToolCall)) :
    List (String × PermDecision) × List (String × ToolCall) :=
  (pending.map (fun p => (p.1, PermDecision.denied)), [])

/-- The content-block kinds `streamWithTools` distinguishes. -/
inductive BlockType
  | textB
  | tool_useB
  | thinkingB
deriving DecidableEq, Repr

/-- Provider SDK events as consumed by `ClaudeAPIService.streamWithTools`.
For `blockStart`, `id`/`name` carry the tool-use block identity (and are
ignored for text/thinking blocks); `messageStop` carries the usage totals the
source reads from `stream.finalMessage()`. -/
inductive ProviderEvent
  | blockStart (index : Nat) (btype : BlockType) (id : String) (name : String)
  | textDelta (index : Nat) (text : String)
  | inputJsonDelta (index : Nat) (partial_json : String)
  | blockStop (index : Nat)
  | messageStop (input_tokens output_tokens : Nat)
deriving DecidableEq, Repr

/-- One model response as delivered by the provider: the SDK events that were
delivered, then optionally a fault thrown by the stream (caught by the
service, which is where a provider-level streaming error surfaces). -/
structure ProviderStream where
  delivered : List ProviderEvent
  fault : Option String
deriving DecidableEq, Repr

/-- `ContentBlockState` from `streamWithTools`. -/
structure ContentBlockState where
  btype : BlockType
  id : String
  name : String
  accumulatedInput : String
  accumulatedText : String
deriving DecidableEq, Repr

/-- `contentBlocks.get(index)` on the index-keyed block map. -/
def blocksGet (blocks : List (Nat × ContentBlockState)) (i : Nat) :
    Option ContentBlockState :=
  ((blocks.reverse).find? (fun p => decide (p.1 = i))).map (·.2)

/-- `contentBlocks.set(index, block)` (insert-or-replace; later set wins). -/
def blocksSet (blocks : List (Nat × ContentBlockState)) (i : Nat)
    (b : ContentBlockState) : List (Nat × ContentBlockState) :=
  blocks ++ [(i, b)]

/-- One step of the `for await` body of `streamWithTools`: given the block
map and a provider event, the updated map and the events yielded.
`jsonValid` is the `JSON.parse` success oracle for accumulated tool input. -/
def streamStep (jsonValid : String → Bool)
    (blocks : List (Nat × ContentBlockState)) (ev : ProviderEvent) :
    List (Nat × ContentBlockState) × List StreamEvent :=
  match ev with
  | ProviderEvent.blockStart i t id name =>
      (blocksSet blocks i { btype := t, id := id, name := name, accumulatedInput := "", accumulatedText := "" }, [])
  | ProviderEvent.textDelta i s =>
      match blocksGet blocks i with
      | none => (blocks, [])
      | some b =>
          (blocksSet blocks i { b with accumulatedText := b.accumulatedText ++ s },
           [StreamEvent.text s])
  | ProviderEvent.inputJsonDelta i s =>
      match blocksGet blocks i with
      | none => (blocks, [])
      | some b =>
          (blocksSet blocks i { b with accumulatedInput := b.accumulatedInput ++ s }, [])
  | ProviderEvent.blockStop i =>
      match blocksGet blocks i with
      | none => (blocks, [])
      | some b =>
          if b.btype = BlockType.tool_useB ∧ b.id ≠ "" ∧ b.name ≠ "" then
            if b.accumulatedInput = "" then
              (blocks, [StreamEvent.tool_call { id := b.id, name := b.name, input := "{}" }])
            else if jsonValid b.accumulatedInput then
              (blocks, [StreamEvent.tool_call { id := b.id, name := b.name, input := b.accumulatedInput }])
            else
              (blocks, [StreamEvent.error ("Failed to parse tool input for " ++ b.name)])
          else
            (blocks, [])
  | ProviderEvent.messageStop tin tout =>
      (blocks, [StreamEvent.usage tin tout])

/-- Fold `streamStep` over the delivered provider events. -/
def streamFold (jsonValid : String → Bool)
    (blocks : List (Nat × ContentBlockState)) :
    List ProviderEvent → List (Nat × ContentBlockState) × List StreamEvent
  | [] => (blocks, [])
  | ev :: rest =>
      let (blocks1, out1) := streamStep jsonValid blocks ev
      let (blocks2, out2) := streamFold jsonValid blocks1 rest
      (blocks2, out1 ++ out2)

/-- `ClaudeAPIService.streamWithTools` for one model response: the events it
yields for a given provider stream.  A provider fault is caught after the
delivered events and yields a single `error` event
(`error.message || 'Streaming failed'`); the generator then ends. -/
def streamWithTools (jsonValid : String → Bool) (ps : ProviderStream) :
    List StreamEvent :=
  let out := (streamFold jsonValid [] ps.delivered).2
  match ps.fault with
  | none => out
  | some msg => out ++ [StreamEvent.error (if msg = "" then "Streaming failed" else msg)]

/-- Accumulator of the `for await` loop over one model stream inside
`executeTurnStreaming`: forwarded events, collected tool calls, accumulated
assistant text, and the usage sums of this response. -/
structure StreamScan where
  forwarded : List StreamEvent
  toolCalls : List ToolCall
  turnText : String
  inTok : Nat
  outTok : Nat
deriving DecidableEq, Repr

/-- One iteration of the `for await` switch in `executeTurnStreaming`:
`text` is forwarded and accumulated, `thinking` forwarded, `tool_call`
forwarded and collected, `usage` accumulated (not forwarded), `error`
forwarded; a `tool_result` event has no branch and is dropped. -/
def scanStepEvent (acc : StreamScan) : StreamEvent → StreamScan
  | StreamEvent.text c =>
      { acc with forwarded := acc.forwarded ++ [StreamEvent.text c],
                 turnText := acc.turnText ++ c }
  | StreamEvent.thinking c =>
      { acc with forwarded := acc.forwarded ++ [StreamEvent.thinking c] }
  | StreamEvent.tool_call tc =>
      { acc with forwarded := acc.forwarded ++ [StreamEvent.tool_call tc],
                 toolCalls := acc.toolCalls ++ [tc] }
  | StreamEvent.usage i o =>
      { acc with inTok := acc.inTok + i, outTok := acc.outTok + o }
  | StreamEvent.error m =>
      { acc with forwarded := acc.forwarded ++ [StreamEvent.error m] }
  | StreamEvent.tool_result _ _ _ => acc

/-- Scan of one whole model response stream by the session loop. -/
def scanModelStream (evs : List StreamEvent) : StreamScan :=
  evs.foldl scanStepEvent { forwarded := [], toolCalls := [], turnText := "", inTok := 0, outTok := 0 }

/-- `AgentSession.calculateCost`:
`(input/1e6) * inputPer1M + (output/1e6) * outputPer1M`. -/
def calculateCost (input_tokens output_tokens : Nat) : ℚ :=
  (input_tokens : ℚ) / 1000000 * AppConfig.pricing.inputPer1M +
  (output_tokens : ℚ) / 1000000 * AppConfig.pricing.outputPer1M

/-- Oracles one turn consumes: the per-call approval responses (keyed by the
tool call id; `none` is the timeout) and the event list each successive model
call streams back. -/
structure TurnEnv where
  registry : ToolRegistry
  profile : AgentProfile
  autoApproveSafe : Bool
  approvals : String → Option ApprovalResponse
  responses : Nat → List StreamEvent

/-- `checkPermission` as invoked by the turn loop for one call. -/
def checkOf (env : TurnEnv) (tc : ToolCall) : Except String CheckResult :=
  PermissionManager.checkPermission env.profile env.registry env.autoApproveSafe
    (env.approvals tc.id) tc

/-- The synthetic result pushed for a denied call. -/
def deniedResult (tc : ToolCall) : ToolResult :=
  { tool_call_id := tc.id, success := false, error := some "Permission denied by user" }

/-- State of the sequential permission phase: the calls already checked (as
their post-check objects — a `modified` response rewrites the input), the
denied pairs, and the approved calls. -/
structure PhaseState where
  processed : List ToolCall
  denied : List (ToolCall × ToolResult)
  approved : List ToolCall
deriving DecidableEq, Repr

/-- The sequential `for (const toolCall of toolCalls)` permission phase.
Returns the final phase state, the calls not yet reached, and the message of
the exception if a check threw (which aborts the whole phase). -/
def permissionLoop (env : TurnEnv) :
    List ToolCall → PhaseState → PhaseState × List ToolCall × Option String
  | [], st => (st, [], none)
  | tc :: rest, st =>
      match checkOf env tc with
      | Except.error msg => (st, tc :: rest, some msg)
      | Except.ok cr =>
          let st2 :=
            if cr.decision = PermDecision.denied then
              { st with processed := st.processed ++ [cr.call],
                        denied := st.denied ++ [(cr.call, deniedResult cr.call)] }
            else
              { st with processed := st.processed ++ [cr.call],
                        approved := st.approved ++ [cr.call] }
          permissionLoop env rest st2

/-- `resultMap.get(id)` on the id-keyed result map (`Map.set` semantics:
a later `set` for the same key replaces the earlier one). -/
def mapGet (entries : List (String × ToolResult)) (k : String) : Option ToolResult :=
  ((entries.reverse).find? (fun e => decide (e.1 = k))).map (·.2)

/-- The placeholder for the TS non-null assertion `resultMap.get(id)!`; the
branch is unreachable because every processed call is either denied or
executed (proved below). -/
def undefinedResult (tc : ToolCall) : ToolResult :=
  { tool_call_id := tc.id, success := false, error := some "undefined" }

/-- Build the result map and read it back in original call order. -/
def mergeResults (ph : PhaseState) (executed : List ToolResult) : List ToolResult :=
  let entries :=
    ph.denied.map (fun p => (p.1.id, p.2)) ++ executed.map (fun r => (r.tool_call_id, r))
  ph.processed.map (fun tc => (mapGet entries tc.id).getD (undefinedResult tc))

/-- Everything one tool round (steps 6–7 of `executeTurnStreaming`) produces:
the call list as it stands after the phase (aliasing — the array the
assistant message holds), the merged results, the `tool_result` events in
original order, the thrown message if a permission check threw, and the
approved sub-list that was handed to the executor. -/
structure RoundResult where
  aliased : List ToolCall
  results : List ToolResult
  events : List StreamEvent
  thrown : Option String
  approved : List ToolCall
deriving DecidableEq, Repr

/-- One tool round: sequential permission phase, parallel execution of the
approved subset, merge back into original order, one `tool_result` event per
call in that order. -/
def processToolRound (env : TurnEnv) (toolCalls : List ToolCall) : RoundResult :=
  let (ph, remaining, thr) :=
    permissionLoop env toolCalls { processed := [], denied := [], approved := [] }
  match thr with
  | some msg =>
      { aliased := ph.processed ++ remaining, results := [], events := [],
        thrown := some msg, approved := ph.approved }
  | none =>
      let executed := ToolExecutor.executeParallel env.registry ph.approved
      let results := mergeResults ph executed
      { aliased := ph.processed ++ remaining,
        results := results,
        events := (ph.processed.zip results).map
          (fun p => StreamEvent.tool_result p.1.id p.1.name p.2),
        thrown := none,
        approved := ph.approved }

/-- How `executeTurnStreaming` ends: a normal return of the generator, or an
exception propagating out of it. -/
inductive TurnOutcome
  | completed
  | thrown (msg : String)
deriving DecidableEq, Repr

/-- Running state of one turn.  `turnIn`/`turnOut` are the
`totalInputTokens`/`totalOutputTokens` locals (accumulated across the whole
turn); `totalTokens`/`totalCost` are the session fields; `appendLog` records
each message with the value it had at the moment it was appended. -/
structure TurnState where
  events : List StreamEvent
  history : List Message
  appendLog : List Message
  turnIn : Nat
  turnOut : Nat
  totalTokens : Nat
  totalCost : ℚ
  modelCalls : Nat
  toolRounds : Nat
deriving DecidableEq, Repr

/-- The `while (hasToolCalls && iterations < maxIterations)` loop of
`executeTurnStreaming`; `fuel = maxIterations - iterations` (the `iterations`
counter increases by one per continuing round).  Each round streams one model
response, adds the running turn totals into the session token/cost fields,
and either completes (no tool calls: final assistant message plus terminal
`usage` event), throws (a permission check threw), or runs the tool round and
continues.  Exhausted fuel is the max-iterations exit with its terminal
`error` event. -/
def runTurnLoop (env : TurnEnv) (maxIterations : Nat) :
    Nat → TurnState → TurnState × TurnOutcome
  | 0, st =>
      ({ st with events := st.events ++
          [StreamEvent.error ("Max iterations (" ++ toString maxIterations ++ ") reached without completion")] },
       TurnOutcome.completed)
  | fuel + 1, st =>
      let scan := scanModelStream (env.responses st.modelCalls)
      let turnIn := st.turnIn + scan.inTok
      let turnOut := st.turnOut + scan.outTok
      let st1 : TurnState :=
        { st with
          events := st.events ++ scan.forwarded,
          turnIn := turnIn, turnOut := turnOut,
          totalTokens := st.totalTokens + (turnIn + turnOut),
          totalCost := st.totalCost + calculateCost turnIn turnOut,
          modelCalls := st.modelCalls + 1 }
      if scan.toolCalls = [] then
        ({ st1 with
            history := st1.history ++ [Message.assistant scan.turnText none],
            appendLog := st1.appendLog ++ [Message.assistant scan.turnText none],
            events := st1.events ++ [StreamEvent.usage turnIn turnOut] },
         TurnOutcome.completed)
      else
        let rr := processToolRound env scan.toolCalls
        match rr.thrown with
        | some msg =>
            ({ st1 with
                history := st1.history ++ [Message.assistant scan.turnText (some rr.aliased)],
                appendLog := st1.appendLog ++ [Message.assistant scan.turnText (some scan.toolCalls)] },
             TurnOutcome.thrown msg)
        | none =>
            runTurnLoop env maxIterations fuel
              { st1 with
                history := st1.history ++
                  [Message.assistant scan.turnText (some rr.aliased), Message.tool rr.results],
                appendLog := st1.appendLog ++
                  [Message.assistant scan.turnText (some scan.toolCalls), Message.tool rr.results],
                events := st1.events ++ rr.events,
                toolRounds := st1.toolRounds + 1 }

/-- The turn state after one continuing round of the loop body (model
response scanned, tool round run, counters stepped) — the argument passed to
the recursive call of `runTurnLoop`. -/
def roundStepState (env : TurnEnv) (st : TurnState) : TurnState :=
  { events := (st.events ++ (scanModelStream (env.responses st.modelCalls)).forwarded) ++
      (processToolRound env (scanModelStream (env.responses st.modelCalls)).toolCalls).events,
    history := st.history ++
      [Message.assistant (scanModelStream (env.responses st.modelCalls)).turnText
         (some (processToolRound env
            (scanModelStream (env.responses st.modelCalls)).toolCalls).aliased),
       Message.tool (processToolRound env
          (scanModelStream (env.responses st.modelCalls)).toolCalls).results],
    appendLog := st.appendLog ++
      [Message.assistant (scanModelStream (env.responses st.modelCalls)).turnText
         (some (scanModelStream (env.responses st.modelCalls)).toolCalls),
       Message.tool (processToolRound env
          (scanModelStream (env.responses st.modelCalls)).toolCalls).results],
    turnIn := st.turnIn + (scanModelStream (env.responses st.modelCalls)).inTok,
    turnOut := st.turnOut + (scanModelStream (env.responses st.modelCalls)).outTok,
    totalTokens := st.totalTokens +
      (st.turnIn + (scanModelStream (env.responses st.modelCalls)).inTok +
       (st.turnOut + (scanModelStream (env.responses st.modelCalls)).outTok)),
    totalCost := st.totalCost +
      calculateCost (st.turnIn + (scanModelStream (env.responses st.modelCalls)).inTok)
        (st.turnOut + (scanModelStream (env.responses st.modelCalls)).outTok),
    modelCalls := st.modelCalls + 1,
    toolRounds := st.toolRounds + 1 }

/-- `AgentSession.executeTurnStreaming`: push the user message, then run the
agentic loop.  `history0`, `totalTokens0`, `totalCost0` are the session
fields at turn start. -/
def executeTurnStreaming (env : TurnEnv) (maxIterations : Nat)
    (userInput : String) (images : List String)
    (history0 : List Message) (totalTokens0 : Nat) (totalCost0 : ℚ) :
    TurnState × TurnOutcome :=
  runTurnLoop env maxIterations maxIterations
    { events := [],
      history := history0 ++ [Message.user userInput images],
      appendLog := [Message.user userInput images],
      turnIn := 0, turnOut := 0,
      totalTokens := totalTokens0, totalCost := totalCost0,
      modelCalls := 0, toolRounds := 0 }

/-- An `AbortController`: `abort()` sets `signal.aborted`. -/
structure AbortController where
  aborted : Bool
deriving DecidableEq, Repr

/-- The mutable state of one `AgentSession` (the fields the modelled
operations read or write), together with its per-session collaborators. -/
structure AgentSessionState where
  profile : AgentProfile
  registry : ToolRegistry
  maxIterations : Nat
  autoApproveSafe : Bool
  conversationHistory : List Message
  turnCount : Nat
  totalTokens : Nat
  totalCost : ℚ
  status : AgentStatus
  abortController : Option AbortController
  pendingApprovals : List (String × ToolCall)

/-- `AgentSession.abort`: abort the current controller (if a turn is in
flight), drop it, deny every pending approval via
`PermissionManager.abortAll`, and set the status to idle.  Besides the new
session state it returns the controller as the in-flight stream observes it
after the call (the stream holds the signal of that same controller) and the
resolution delivered to each pending approval request. -/
def AgentSession.abort (s : AgentSessionState) :
    AgentSessionState × Option AbortController × List (String × PermDecision) :=
  let signalAfter := s.abortController.map (fun c => { c with aborted := true })
  let aborted := PermissionManager.abortAll s.pendingApprovals
  ({ s with abortController := none,
            pendingApprovals := aborted.2,
            status := AgentStatus.idle },
   signalAfter, aborted.1)

/-- Lifecycle notifications the manager emits outward. -/
inductive ManagerNotification
  | statusChange (id : String) (status : AgentStatus)
  | agentError (id : String) (msg : String)
deriving DecidableEq, Repr

/-- A record written to the transcript persistence sink by `saveSession`
(the database-side message transformation is outside the modelled boundary). -/
structure SavedConversation where
  id : String
  messages : List Message
deriving DecidableEq, Repr

/-- `AgentManager` state: the live session map and the persisted records. -/
structure AgentManagerState where
  activeAgents : List (String × AgentSessionState)
  saved : List SavedConversation

/-- `activeAgents.get(agentId)`. -/
def lookupAgent (l : List (String × AgentSessionState)) (id : String) :
    Option AgentSessionState :=
  (l.find? (fun p => decide (p.1 = id))).map (·.2)

/-- Replace the session stored under `id`. -/
def updateAgent (l : List (String × AgentSessionState)) (id : String)
    (s : AgentSessionState) : List (String × AgentSessionState) :=
  l.map (fun p => if p.1 = id then (id, s) else p)

/-- What one `sendMessageStreaming` call produces: the events yielded to the
caller, the lifecycle notifications emitted, and the manager state after. -/
structure SendResult where
  events : List StreamEvent
  notifications : List ManagerNotification
  state : AgentManagerState

/-- `AgentManager.sendMessageStreaming`.  An unknown session id yields one
`error` event and returns with nothing else done.  Otherwise the session is
set to `thinking` (with a status-change notification), the turn runs, and on
normal completion the session goes back to `idle` and is persisted; an
exception out of the turn is caught, the session goes to `idle`, an
`agent:error` notification and a final `error` event are emitted, and
nothing is persisted. -/
def AgentManager.sendMessageStreaming
    (approvals : String → Option ApprovalResponse)
    (responses : Nat → List StreamEvent)
    (mst : AgentManagerState) (agentId : String)
    (message : String) (images : List String) : SendResult :=
  match lookupAgent mst.activeAgents agentId with
  | none =>
      { events := [StreamEvent.error ("Agent " ++ agentId ++ " not found")],
        notifications := [], state := mst }
  | some agent =>
      let env : TurnEnv :=
        { registry := agent.registry, profile := agent.profile,
          autoApproveSafe := agent.autoApproveSafe,
          approvals := approvals, responses := responses }
      let r := executeTurnStreaming env agent.maxIterations message images
        agent.conversationHistory agent.totalTokens agent.totalCost
      let agentAfter : AgentSessionState :=
        { agent with
          conversationHistory := r.1.history,
          turnCount := agent.turnCount + 1,
          totalTokens := r.1.totalTokens,
          totalCost := r.1.totalCost,
          status := AgentStatus.idle }
      match r.2 with
      | TurnOutcome.completed =>
          { events := r.1.events,
            notifications :=
              [ManagerNotification.statusChange agentId AgentStatus.thinking,
               ManagerNotification.statusChange agentId AgentStatus.idle],
            state :=
              { activeAgents := updateAgent mst.activeAgents agentId agentAfter,
                saved := mst.saved ++ [{ id := agentId, messages := r.1.history }] } }
      | TurnOutcome.thrown msg =>
          { events := r.1.events ++ [StreamEvent.error msg],
            notifications :=
              [ManagerNotification.statusChange agentId AgentStatus.thinking,
               ManagerNotification.statusChange agentId AgentStatus.idle,
               ManagerNotification.agentError agentId msg],
            state :=
              { activeAgents := updateAgent mst.activeAgents agentId agentAfter,
                saved := mst.saved } }

/-- The call object after a (non-throwing) permission check: identical to the
input call except that a `modified` approval rewrote its input. -/
def procCallD (env : TurnEnv) (tc : ToolCall) : ToolCall :=
  match checkOf env tc with
  | Except.ok cr => cr.call
  | Except.error _ => tc

/-- The decision a (non-throwing) permission check resolves to. -/
def decisionD (env : TurnEnv) (tc : ToolCall) : PermDecision :=
  match checkOf env tc with
  | Except.ok cr => cr.decision
  | Except.error _ => PermDecision.denied

/-- The single `ToolResult` one call of a round ends up with: the synthetic
denial result when the gate denied it, its execution result otherwise. -/
def roundResultOf (env : TurnEnv) (tc : ToolCall) : ToolResult :=
  if decisionD env tc = PermDecision.denied then
    deniedResult (procCallD env tc)
  else
    ToolExecutor.executeToolCall env.registry (procCallD env tc)

/-- Whether a registry dispatch succeeded (the handler neither was unknown
nor threw). -/
def execOk (r : Except String ToolOutput) : Bool :=
  match r with
  | Except.ok _ => true
  | Except.error _ => false

/-- Concrete fixture: an always-allowed safe calculator tool. -/
def exCalcTool : Tool :=
  { name := "calc", description := "evaluate", input_schema := "obj",
    permission := { permission := PermissionLevel.always, risk_level := RiskLevel.safe },
    execute := fun _ => Except.ok (ToolOutput.plain "4") }

/-- Concrete fixture: an ask-class moderate tool that echoes its input. -/
def exEditTool : Tool :=
  { name := "edit", description := "edit", input_schema := "obj",
    permission := { permission := PermissionLevel.ask, risk_level := RiskLevel.moderate },
    execute := fun i => Except.ok (ToolOutput.plain i) }

/-- Concrete fixture: a tool whose handler always throws. -/
def exThrowTool : Tool :=
  { name := "boomtool", description := "throws", input_schema := "obj",
    permission := { permission := PermissionLevel.always, risk_level := RiskLevel.safe },
    execute := fun _ => Except.error "handler blew up" }

/-- Concrete fixture: a profile allowing `calc` and leaving the rest `ask`. -/
def exProfile : AgentProfile :=
  { id := "helper", tool_permissions := [("calc", PermissionLevel.always)],
    max_iterations := 15 }

/-- Concrete fixture: a profile with no declared tool permissions. -/
def exEmptyProfile : AgentProfile :=
  { id := "empty", tool_permissions := [], max_iterations := 15 }

/-- Concrete fixture: a call to a tool name no registry entry matches. -/
def exGhostCall : ToolCall := { id := "g1", name := "ghost", input := "{}" }

/-- Fixture turn for C2: two model responses, each reporting usage of 100
input and 10 output tokens; the first requests one `calc` call, the second
requests none. -/
def exTwoResponseEnv : TurnEnv :=
  { registry := [exCalcTool], profile := exProfile, autoApproveSafe := false,
    approvals := fun _ => none,
    responses := fun n =>
      if n = 0 then
        [StreamEvent.tool_call { id := "c1", name := "calc", input := "2+2" },
         StreamEvent.usage 100 10]
      else
        [StreamEvent.usage 100 10] }

/-- The C2 fixture turn, run from a fresh session. -/
def exTwoResponseRun : TurnState × TurnOutcome :=
  executeTurnStreaming exTwoResponseEnv 15 "what is 2+2" [] [] 0 0

/-- Fixture turn for C3: the provider faults with message `boom` before
delivering any event. -/
def exFaultEnv : TurnEnv :=
  { registry := [exCalcTool], profile := exProfile, autoApproveSafe := false,
    approvals := fun _ => none,
    responses := fun _ =>
      streamWithTools (fun _ => true) { delivered := [], fault := some "boom" } }

/-- The C3 fixture turn, run from a fresh session. -/
def exFaultRun : TurnState × TurnOutcome :=
  executeTurnStreaming exFaultEnv 15 "hi" [] [] 0 0

/-- Fixture turn for C5: one ask-class call whose approval response is
`modified`, rewriting the input from `oldInput` to `newInput`. -/
def exModifiedEnv : TurnEnv :=
  { registry := [exEditTool], profile := exEmptyProfile, autoApproveSafe := false,
    approvals := fun _ => some (ApprovalResponse.modified "newInput"),
    responses := fun n =>
      if n = 0 then
        [StreamEvent.tool_call { id := "m1", name := "edit", input := "oldInput" }]
      else [] }

/-- The C5 fixture turn, run from a fresh session. -/
def exModifiedRun : TurnState × TurnOutcome :=
  executeTurnStreaming exModifiedEnv 15 "hi" [] [] 0 0

/-- Fixture turn for C8 and C9 witnesses: every model response requests one
`calc` call, so only the iteration cap stops the loop. -/
def exAlwaysToolsEnv : TurnEnv :=
  { registry := [exCalcTool], profile := exProfile, autoApproveSafe := false,
    approvals := fun _ => none,
    responses := fun n =>
      [StreamEvent.tool_call { id := "i" ++ toString n, name := "calc", input := "2+2" }] }

/-- Fixture turn for C9: the model requests a call to an unregistered tool,
whose permission class defaults to `ask`. -/
def exGhostEnv : TurnEnv :=
  { registry := [exCalcTool], profile := exProfile, autoApproveSafe := false,
    approvals := fun _ => some ApprovalResponse.approved,
    responses := fun n =>
      if n = 0 then [StreamEvent.tool_call exGhostCall] else [] }

/-- Fixture session used by the manager-level witnesses. -/
def exSession : AgentSessionState :=
  { profile := exProfile, registry := [exCalcTool], maxIterations := 15,
    autoApproveSafe := false, conversationHistory := [], turnCount := 0,
    totalTokens := 0, totalCost := 0, status := AgentStatus.idle,
    abortController := none, pendingApprovals := [] }

/-- Fixture session with a turn in flight and two pending approvals. -/
def exSessionInFlight : AgentSessionState :=
  { exSession with
    status := AgentStatus.waiting_approval,
    abortController := some { aborted := false },
    pendingApprovals :=
      [("p1", { id := "p1", name := "edit", input := "a" }),
       ("p2", { id := "p2", name := "edit", input := "b" })] }

/-- Manager fixture holding one live session under id `s1`. -/
def exManagerState : AgentManagerState :=
  { activeAgents := [("s1", exSession)], saved := [] }

/-- Executor fixture: three calls of which exactly the second dispatches to a
throwing handler. -/
def exThrowCalls : List ToolCall :=
  [{ id := "a1", name := "calc", input := "x" },
   { id := "a2", name := "boomtool", input := "x" },
   { id := "a3", name := "calc", input := "x" }]

/-- Round fixture for the C4 witness: one call the profile denies outright
and one it always allows. -/
def exMixedEnv : TurnEnv :=
  { registry := [exCalcTool, exEditTool],
    profile := { id := "mixed",
                 tool_permissions := [("calc", PermissionLevel.always),
                                      ("edit", PermissionLevel.never)],
                 max_iterations := 15 },
    autoApproveSafe := false,
    approvals := fun _ => none,
    responses := fun _ => [] }

/-- The two calls of the C4 witness round, with distinct ids. -/
def exMixedCalls : List ToolCall :=
  [{ id := "x1", name := "edit", input := "i1" },
   { id := "x2", name := "calc", input := "i2" }]

/-- C1: for every session with a turn in flight (a live abort controller),
`abort()` sets the aborted flag of the signal the in-flight stream holds,
resolves every pending permission-gate request as denied (via `abortAll`,
modelled from the spec) and empties the pending map, drops the controller,
and resets the session status to idle. -/
theorem abort_cancels_stream_denies_pending_resets_idle
    (s : AgentSessionState) (c : AbortController)
    (h : s.abortController = some c) :
    (AgentSession.abort s).2.1 = some { c with aborted := true } ∧
    (AgentSession.abort s).2.2 =
      s.pendingApprovals.map (fun p => (p.1, PermDecision.denied)) ∧
    (AgentSession.abort s).1.pendingApprovals = [] ∧
    (AgentSession.abort s).1.abortController = none ∧
    (AgentSession.abort s).1.status = AgentStatus.idle := by
  simp [AgentSession.abort, PermissionManager.abortAll, h]

/-- Witness for C1 at a concrete in-flight session with two pending
approvals. -/
theorem abort_cancels_stream_witness :
    exSessionInFlight.abortController = some { aborted := false } ∧
    (AgentSession.abort exSessionInFlight).2.1 = some { aborted := true } ∧
    (AgentSession.abort exSessionInFlight).2.2 =
      [("p1", PermDecision.denied), ("p2", PermDecision.denied)] ∧
    (AgentSession.abort exSessionInFlight).1.pendingApprovals = [] ∧
    (AgentSession.abort exSessionInFlight).1.status = AgentStatus.idle := by
  have h := abort_cancels_stream_denies_pending_resets_idle exSessionInFlight
    { aborted := false } rfl
  exact ⟨rfl, h.1, h.2.1.trans (by decide), h.2.2.1, h.2.2.2.2⟩

/-- C10: a streaming send-message call with a session id that is not among
the live sessions yields exactly one `error` event naming the unknown
session and ends: no notification is emitted and the manager state (live
sessions and persisted records) is returned unchanged. -/
theorem unknown_session_yields_single_error_event
    (approvals : String → Option ApprovalResponse)
    (responses : Nat → List StreamEvent)
    (mst : AgentManagerState) (agentId message : String) (images : List String)
    (h : lookupAgent mst.activeAgents agentId = none) :
    AgentManager.sendMessageStreaming approvals responses mst agentId message images =
      { events := [StreamEvent.error ("Agent " ++ agentId ++ " not found")],
        notifications := [], state := mst } := by
  unfold AgentManager.sendMessageStreaming
  rw [h]

/-- Witness for C10 at a concrete manager holding only session `s1`. -/
theorem unknown_session_witness :
    AgentManager.sendMessageStreaming (fun _ => none) (fun _ => [])
        exManagerState "nope" "m" [] =
      { events := [StreamEvent.error "Agent nope not found"],
        notifications := [], state := exManagerState } :=
  unknown_session_yields_single_error_event (fun _ => none) (fun _ => [])
    exManagerState "nope" "m" [] rfl

/-- C2 (code behavior at the failing input): in a turn with two model
responses, each reporting 100 input and 10 output tokens, the session total
rises by 110 after the first response and by another 220 after the second —
the first response's tokens are counted again — ending at 330 tokens and
cost 27/20000, not the 220 tokens and twice `calculateCost 100 10` the claim
prescribes.  The loop adds the running turn totals
(`totalInputTokens`/`totalOutputTokens`, accumulated across iterations) into
the session fields on every iteration. -/
theorem cost_accumulation_double_counts_at_two_responses :
    exTwoResponseRun.1.totalTokens = 330 ∧
    exTwoResponseRun.1.totalCost = 27 / 20000 ∧
    ¬ exTwoResponseRun.1.totalTokens = 110 + 110 ∧
    ¬ exTwoResponseRun.1.totalCost = calculateCost 100 10 + calculateCost 100 10 := by
  have hc : exTwoResponseRun.1.totalCost =
      0 + calculateCost 100 10 + calculateCost 200 20 := rfl
  have hval : (0 : ℚ) + calculateCost 100 10 + calculateCost 200 20 = 27 / 20000 := by
    norm_num [calculateCost, AppConfig.pricing]
  refine ⟨by decide, hc.trans hval, by decide, ?_⟩
  rw [hc, hval]
  norm_num [calculateCost, AppConfig.pricing]

/-- C3 counterexample: a provider fault before any delivered event produces
the event sequence `[error "boom", usage 0 0]` — a further StreamEvent (the
`usage` event) is emitted after the `error` event, so the `error` event is
not turn-terminal as claimed. -/
theorem provider_error_followed_by_usage_event :
    exFaultRun.1.events = [StreamEvent.error "boom", StreamEvent.usage 0 0] ∧
    exFaultRun.1.events.getLast? ≠ some (StreamEvent.error "boom") ∧
    exFaultRun.2 = TurnOutcome.completed := by
  decide

/-- C5 counterexample: with a `modified` approval response, the assistant
message was appended holding the ToolCall input `oldInput`, but in the final
history the same message holds `newInput` — the appended Message was mutated
in place through the shared ToolCall object. -/
theorem modified_approval_mutates_appended_assistant_message :
    exModifiedRun.1.appendLog[1]? =
      some (Message.assistant "" (some [{ id := "m1", name := "edit", input := "oldInput" }])) ∧
    exModifiedRun.1.history[1]? =
      some (Message.assistant "" (some [{ id := "m1", name := "edit", input := "newInput" }])) ∧
    exModifiedRun.1.history[1]? ≠ exModifiedRun.1.appendLog[1]? := by
  decide

/-- C6 counterexample: for a call to an unregistered tool whose permission
class resolves to `ask` (and is not auto-approved), the check does not issue
an ApprovalRequest and suspend — it throws `Unknown tool: ghost` while
building the tool-definition snapshot. -/
theorem ask_unknown_tool_check_throws_without_request :
    permClassOf exEmptyProfile "ghost" = PermissionLevel.ask ∧
    ToolRegistry.hasTool [] "ghost" = false ∧
    PermissionManager.checkPermission exEmptyProfile [] false
        (some ApprovalResponse.approved) exGhostCall =
      Except.error "Unknown tool: ghost" :=
  ⟨by decide, by decide, rfl⟩

/-- C9 counterexample: a call to an unregistered tool whose permission class
resolves to `ask` makes the turn generator itself throw — the unknown-tool
error escapes the turn loop as an exception instead of being converted
inside it. -/
theorem unknown_tool_ask_error_escapes_turn_loop :
    (executeTurnStreaming exGhostEnv 15 "hi" [] [] 0 0).2 =
      TurnOutcome.thrown "Unknown tool: ghost" ∧
    permClassOf exProfile "ghost" = PermissionLevel.ask := by
  decide

/-- C7: executing a single call always resolves to a `ToolResult` carrying
the call's id — a thrown handler error is caught and becomes a failed result
with the error message, a successful handler a successful result — and the
batch call returns exactly N results for N calls, index-aligned with the
input, with exactly as many failed results as calls whose dispatch throws
(so one throwing handler yields exactly one failed result and leaves the
others unaffected). -/
theorem executor_isolates_handler_failures
    (reg : ToolRegistry) (toolCalls : List ToolCall) :
    (ToolExecutor.executeParallel reg toolCalls).length = toolCalls.length ∧
    (∀ (i : Nat) (tc : ToolCall), toolCalls[i]? = some tc →
      (ToolExecutor.executeParallel reg toolCalls)[i]? =
        some (ToolExecutor.executeToolCall reg tc) ∧
      (ToolExecutor.executeToolCall reg tc).tool_call_id = tc.id ∧
      (∀ msg, ToolRegistry.execute reg tc.name tc.input = Except.error msg →
        (ToolExecutor.executeToolCall reg tc).success = false ∧
        (ToolExecutor.executeToolCall reg tc).error =
          some (if msg = "" then "Unknown error" else msg)) ∧
      (∀ outv, ToolRegistry.execute reg tc.name tc.input = Except.ok outv →
        (ToolExecutor.executeToolCall reg tc).success = true)) ∧
    (ToolExecutor.executeParallel reg toolCalls).countP (fun r => !r.success) =
      toolCalls.countP (fun tc => !(execOk (ToolRegistry.execute reg tc.name tc.input))) ∧
    (toolCalls.countP (fun tc => !(execOk (ToolRegistry.execute reg tc.name tc.input))) = 1 →
      (ToolExecutor.executeParallel reg toolCalls).countP (fun r => !r.success) = 1) := by
  have hsucc : ∀ tc : ToolCall,
      (ToolExecutor.executeToolCall reg tc).success =
        execOk (ToolRegistry.execute reg tc.name tc.input) := by
    intro tc
    unfold ToolExecutor.executeToolCall execOk
    cases ToolRegistry.execute reg tc.name tc.input with
    | ok v => cases v <;> rfl
    | error msg => rfl
  have hcount :
      (ToolExecutor.executeParallel reg toolCalls).countP (fun r => !r.success) =
        toolCalls.countP (fun tc => !(execOk (ToolRegistry.execute reg tc.name tc.input))) := by
    unfold ToolExecutor.executeParallel
    rw [List.countP_map]
    refine List.countP_congr ?_
    intro tc _
    simp [Function.comp, hsucc tc]
  refine ⟨List.length_map _ _, ?_, hcount, fun h1 => hcount.trans h1⟩
  intro i tc hi
  refine ⟨?_, ?_, ?_, ?_⟩
  · unfold ToolExecutor.executeParallel
    rw [List.getElem?_map, hi]
    rfl
  · unfold ToolExecutor.executeToolCall
    cases ToolRegistry.execute reg tc.name tc.input with
    | ok v => cases v <;> rfl
    | error msg => rfl
  · intro msg hmsg
    unfold ToolExecutor.executeToolCall
    rw [hmsg]
    exact ⟨rfl, rfl⟩
  · intro outv hok
    unfold ToolExecutor.executeToolCall
    rw [hok]
    cases outv <;> rfl

/-- Witness for C7: in a three-call batch against a registry where exactly
the second call's handler throws, exactly one result is failed. -/
theorem executor_isolation_witness :
    (ToolExecutor.executeParallel [exCalcTool, exThrowTool] exThrowCalls).countP
        (fun r => !r.success) = 1 :=
  (executor_isolates_handler_failures [exCalcTool, exThrowTool] exThrowCalls).2.2.2
    (by decide)

/-- Auxiliary: the prompt keeps the call id and name, and rewrites the input
exactly for a `modified` response. -/
theorem promptUser_call (resp : Option ApprovalResponse) (tc : ToolCall) :
    (PermissionManager.promptUser resp tc).call.id = tc.id ∧
    (PermissionManager.promptUser resp tc).call.name = tc.name ∧
    ((PermissionManager.promptUser resp tc).call = tc ∨
      ∃ s, resp = some (ApprovalResponse.modified s) ∧
        (PermissionManager.promptUser resp tc).call = { tc with input := s }) := by
  cases resp with
  | none => exact ⟨rfl, rfl, Or.inl rfl⟩
  | some r =>
    cases r with
    | approved => exact ⟨rfl, rfl, Or.inl rfl⟩
    | denied reason => exact ⟨rfl, rfl, Or.inl rfl⟩
    | modified s => exact ⟨rfl, rfl, Or.inr ⟨s, rfl, rfl⟩⟩
    | unexpected => exact ⟨rfl, rfl, Or.inl rfl⟩

/-- Auxiliary: a non-throwing permission check keeps the call id and name,
and rewrites the input exactly for a `modified` response. -/
theorem checkPermission_ok_call (profile : AgentProfile) (reg : ToolRegistry)
    (flag : Bool) (resp : Option ApprovalResponse) (tc : ToolCall) (cr : CheckResult)
    (h : PermissionManager.checkPermission profile reg flag resp tc = Except.ok cr) :
    cr.call.id = tc.id ∧ cr.call.name = tc.name ∧
    (cr.call = tc ∨ ∃ s, resp = some (ApprovalResponse.modified s) ∧
      cr.call = { tc with input := s }) := by
  unfold PermissionManager.checkPermission at h
  cases hp : permClassOf profile tc.name <;> rw [hp] at h
  case always =>
    injection h with h
    subst h
    exact ⟨rfl, rfl, Or.inl rfl⟩
  case never =>
    injection h with h
    subst h
    exact ⟨rfl, rfl, Or.inl rfl⟩
  case ask =>
    by_cases hcond : (flag ∧ riskOf reg tc.name = RiskLevel.safe)
    · rw [if_pos hcond] at h
      injection h with h
      subst h
      exact ⟨rfl, rfl, Or.inl rfl⟩
    · rw [if_neg hcond] at h
      cases hg : ToolRegistry.get reg tc.name <;> rw [hg] at h
      · exact absurd h (by simp)
      · injection h with h
        subst h
        exact promptUser_call resp tc

/-- Auxiliary: `procCallD` keeps the call id. -/
theorem procCallD_id (env : TurnEnv) (tc : ToolCall) :
    (procCallD env tc).id = tc.id := by
  unfold procCallD
  cases hc : checkOf env tc with
  | ok cr => exact (checkPermission_ok_call _ _ _ _ _ _ hc).1
  | error e => rfl

/-- Auxiliary: `procCallD` keeps the call name. -/
theorem procCallD_name (env : TurnEnv) (tc : ToolCall) :
    (procCallD env tc).name = tc.name := by
  unfold procCallD
  cases hc : checkOf env tc with
  | ok cr => exact (checkPermission_ok_call _ _ _ _ _ _ hc).2.1
  | error e => rfl

/-- Auxiliary: closed form of the sequential permission phase when no check
throws — the processed calls are the checked calls in order, and the
denied/approved lists are the order-preserving partition by decision. -/
theorem permissionLoop_ok_closed (env : TurnEnv) (calls : List ToolCall)
    (hok : ∀ tc ∈ calls, (checkOf env tc).isOk = true) (st : PhaseState) :
    permissionLoop env calls st =
      ({ processed := st.processed ++ calls.map (procCallD env),
         denied := st.denied ++
           (calls.filter (fun tc => decide (decisionD env tc = PermDecision.denied))).map
             (fun tc => (procCallD env tc, deniedResult (procCallD env tc))),
         approved := st.approved ++
           (calls.filter (fun tc => decide (decisionD env tc = PermDecision.allowed))).map
             (procCallD env) },
       [], none) := by
  induction calls generalizing st with
  | nil => simp [permissionLoop]
  | cons tc rest ih =>
    have htc := hok tc (List.mem_cons_self tc rest)
    obtain ⟨cr, hcr⟩ : ∃ cr, checkOf env tc = Except.ok cr := by
      cases hc : checkOf env tc with
      | ok cr => exact ⟨cr, rfl⟩
      | error e => rw [hc] at htc; simp [Except.isOk, Except.toBool] at htc
    have hproc : procCallD env tc = cr.call := by simp [procCallD, hcr]
    have hdec : decisionD env tc = cr.decision := by simp [decisionD, hcr]
    rw [permissionLoop, hcr]
    dsimp only
    cases hd : cr.decision with
    | denied =>
      rw [if_pos rfl]
      rw [ih (fun t ht => hok t (List.mem_cons_of_mem _ ht))]
      simp [List.filter_cons, hdec, hd, hproc]
    | allowed =>
      rw [if_neg (by simp)]
      rw [ih (fun t ht => hok t (List.mem_cons_of_mem _ ht))]
      simp [List.filter_cons, hdec, hd, hproc]

/-- Auxiliary: when no check throws, the round does not throw. -/
theorem processToolRound_thrown_none (env : TurnEnv) (calls : List ToolCall)
    (hok : ∀ tc ∈ calls, (checkOf env tc).isOk = true) :
    (processToolRound env calls).thrown = none := by
  unfold processToolRound
  rw [permissionLoop_ok_closed env calls hok]

/-- Auxiliary: one continuing round of the turn loop (tool calls present,
no check throws) steps the state exactly as the loop body writes it. -/
theorem runTurnLoop_succ_tools (env : TurnEnv) (m fuel : Nat) (st : TurnState)
    (hne : ¬ (scanModelStream (env.responses st.modelCalls)).toolCalls = [])
    (hthr : (processToolRound env
        (scanModelStream (env.responses st.modelCalls)).toolCalls).thrown = none) :
    runTurnLoop env m (fuel + 1) st = runTurnLoop env m fuel (roundStepState env st) := by
  rw [runTurnLoop]
  dsimp only
  rw [if_neg hne, hthr]
  rfl

/-- Auxiliary: the success exit of the turn loop (no tool calls in the model
response). -/
theorem runTurnLoop_succ_no_tools (env : TurnEnv) (m fuel : Nat) (st : TurnState)
    (he : (scanModelStream (env.responses st.modelCalls)).toolCalls = []) :
    runTurnLoop env m (fuel + 1) st =
      ({ events := (st.events ++ (scanModelStream (env.responses st.modelCalls)).forwarded) ++
           [StreamEvent.usage (st.turnIn + (scanModelStream (env.responses st.modelCalls)).inTok)
              (st.turnOut + (scanModelStream (env.responses st.modelCalls)).outTok)],
         history := st.history ++
           [Message.assistant (scanModelStream (env.responses st.modelCalls)).turnText none],
         appendLog := st.appendLog ++
           [Message.assistant (scanModelStream (env.responses st.modelCalls)).turnText none],
         turnIn := st.turnIn + (scanModelStream (env.responses st.modelCalls)).inTok,
         turnOut := st.turnOut + (scanModelStream (env.responses st.modelCalls)).outTok,
         totalTokens := st.totalTokens +
           (st.turnIn + (scanModelStream (env.responses st.modelCalls)).inTok +
            (st.turnOut + (scanModelStream (env.responses st.modelCalls)).outTok)),
         totalCost := st.totalCost +
           calculateCost (st.turnIn + (scanModelStream (env.responses st.modelCalls)).inTok)
             (st.turnOut + (scanModelStream (env.responses st.modelCalls)).outTok),
         modelCalls := st.modelCalls + 1,
         toolRounds := st.toolRounds },
       TurnOutcome.completed) := by
  rw [runTurnLoop]
  dsimp only
  rw [if_pos he]

/-- C8: against a model whose every response requests at least one tool call
(and whose calls pass the permission check without throwing), a turn with
`maxIterations = m` performs exactly m model calls and exactly m
tool-execution rounds, completes normally, and its last event is the
terminal `error` event describing the iteration limit — never an (m+1)-th
model call and never an unbounded loop. -/
theorem turn_loop_bounded_by_max_iterations
    (env : TurnEnv) (m : Nat) (userInput : String) (images : List String)
    (history0 : List Message) (t0 : Nat) (c0 : ℚ)
    (hcalls : ∀ n, n < m → (scanModelStream (env.responses n)).toolCalls ≠ [])
    (hok : ∀ n, n < m → ∀ tc ∈ (scanModelStream (env.responses n)).toolCalls,
      (checkOf env tc).isOk = true) :
    (executeTurnStreaming env m userInput images history0 t0 c0).1.modelCalls = m ∧
    (executeTurnStreaming env m userInput images history0 t0 c0).1.toolRounds = m ∧
    (executeTurnStreaming env m userInput images history0 t0 c0).2 = TurnOutcome.completed ∧
    (executeTurnStreaming env m userInput images history0 t0 c0).1.events.getLast? =
      some (StreamEvent.error
        ("Max iterations (" ++ toString m ++ ") reached without completion")) := by
  have aux : ∀ fuel : Nat, ∀ st : TurnState, fuel ≤ m → st.modelCalls = m - fuel →
      (runTurnLoop env m fuel st).1.modelCalls = m ∧
      (runTurnLoop env m fuel st).1.toolRounds = st.toolRounds + fuel ∧
      (runTurnLoop env m fuel st).2 = TurnOutcome.completed ∧
      (runTurnLoop env m fuel st).1.events.getLast? =
        some (StreamEvent.error
          ("Max iterations (" ++ toString m ++ ") reached without completion")) := by
    intro fuel
    induction fuel with
    | zero =>
      intro st hle hmc
      rw [runTurnLoop]
      refine ⟨by simpa using hmc, by simp, rfl, ?_⟩
      simp [List.getLast?_concat]
    | succ fuel ih =>
      intro st hle hmc
      have hlt : st.modelCalls < m := by omega
      have h1 := hcalls st.modelCalls hlt
      have h2 := processToolRound_thrown_none env _ (hok st.modelCalls hlt)
      rw [runTurnLoop_succ_tools env m fuel st h1 h2]
      obtain ⟨a, b, c, d⟩ := ih (roundStepState env st) (Nat.le_of_succ_le hle)
        (show st.modelCalls + 1 = m - fuel by omega)
      exact ⟨a, by rw [b]; show st.toolRounds + 1 + fuel = st.toolRounds + (fuel + 1); omega,
        c, d⟩
  have h := aux m
    { events := [], history := history0 ++ [Message.user userInput images],
      appendLog := [Message.user userInput images], turnIn := 0, turnOut := 0,
      totalTokens := t0, totalCost := c0, modelCalls := 0, toolRounds := 0 }
    (Nat.le_refl m) (by simp)
  exact ⟨h.1, by simpa using h.2.1, h.2.2.1, h.2.2.2⟩

/-- Auxiliary: when no approval response is `modified`, the permission phase
returns the call objects unchanged (checked prefix plus unreached suffix is
the original list), whether or not a check threw. -/
theorem permissionLoop_aliased_no_modified (env : TurnEnv)
    (hnm : ∀ id s, env.approvals id ≠ some (ApprovalResponse.modified s)) :
    ∀ (calls : List ToolCall) (st : PhaseState),
      (permissionLoop env calls st).1.processed ++ (permissionLoop env calls st).2.1 =
        st.processed ++ calls := by
  intro calls
  induction calls with
  | nil => intro st; simp [permissionLoop]
  | cons tc rest ih =>
    intro st
    rw [permissionLoop]
    cases hc : checkOf env tc with
    | error e => dsimp only
    | ok cr =>
      have hcall : cr.call = tc := by
        rcases (checkPermission_ok_call _ _ _ _ _ _ hc).2.2 with h | ⟨s, hs, _⟩
        · exact h
        · exact absurd hs (hnm tc.id s)
      dsimp only
      by_cases hd : cr.decision = PermDecision.denied
      · rw [if_pos hd, ih]
        simp [hcall]
      · rw [if_neg hd, ih]
        simp [hcall]

/-- Auxiliary: when no approval response is `modified`, the call list the
appended assistant message holds after the round is the original one. -/
theorem processToolRound_aliased_no_modified (env : TurnEnv)
    (hnm : ∀ id s, env.approvals id ≠ some (ApprovalResponse.modified s))
    (calls : List ToolCall) :
    (processToolRound env calls).aliased = calls := by
  have h := permissionLoop_aliased_no_modified env hnm calls
    { processed := [], denied := [], approved := [] }
  unfold processToolRound
  rcases hp : permissionLoop env calls { processed := [], denied := [], approved := [] } with
    ⟨ph, rem, thr⟩
  rw [hp] at h
  simp only [List.nil_append] at h
  cases thr <;> simpa using h

/-- Auxiliary: when no approval response is `modified`, the turn loop grows
the history and the append log by the same message list. -/
theorem runTurnLoop_history_appendLog (env : TurnEnv) (m : Nat)
    (hnm : ∀ id s, env.approvals id ≠ some (ApprovalResponse.modified s)) :
    ∀ (fuel : Nat) (st : TurnState),
      ∃ Δ, (runTurnLoop env m fuel st).1.history = st.history ++ Δ ∧
        (runTurnLoop env m fuel st).1.appendLog = st.appendLog ++ Δ := by
  intro fuel
  induction fuel with
  | zero =>
    intro st
    exact ⟨[], by rw [runTurnLoop]; simp, by rw [runTurnLoop]; simp⟩
  | succ fuel ih =>
    intro st
    by_cases he : (scanModelStream (env.responses st.modelCalls)).toolCalls = []
    · refine ⟨[Message.assistant (scanModelStream (env.responses st.modelCalls)).turnText none],
        ?_, ?_⟩ <;>
        rw [runTurnLoop_succ_no_tools env m fuel st he]
    · cases hthr : (processToolRound env
          (scanModelStream (env.responses st.modelCalls)).toolCalls).thrown with
      | none =>
        obtain ⟨Δ, h1, h2⟩ := ih (roundStepState env st)
        rw [runTurnLoop_succ_tools env m fuel st he hthr] at *
        refine ⟨[Message.assistant (scanModelStream (env.responses st.modelCalls)).turnText
            (some (scanModelStream (env.responses st.modelCalls)).toolCalls),
          Message.tool (processToolRound env
            (scanModelStream (env.responses st.modelCalls)).toolCalls).results] ++ Δ, ?_, ?_⟩
        · rw [h1]
          simp [roundStepState, processToolRound_aliased_no_modified env hnm]
        · rw [h2]
          simp [roundStepState]
      | some msg =>
        rw [runTurnLoop]
        dsimp only
        rw [if_neg he, hthr]
        refine ⟨[Message.assistant (scanModelStream (env.responses st.modelCalls)).turnText
            (some (scanModelStream (env.responses st.modelCalls)).toolCalls)], ?_, ?_⟩
        · simp [processToolRound_aliased_no_modified env hnm]
        · simp

/-- C5 (amended): every operation of the turn only appends Messages; in any
turn in which no approval response is `modified`, the final history is the
prior transcript followed by exactly the messages as they were appended (no
appended Message ever changes); the single exception the counterexample
forces is that a `modified` response rewrites the input of its ToolCall
inside the already-appended assistant Message. -/
theorem transcript_append_only_without_modified_responses
    (env : TurnEnv) (m : Nat) (userInput : String) (images : List String)
    (history0 : List Message) (t0 : Nat) (c0 : ℚ)
    (hnm : ∀ id s, env.approvals id ≠ some (ApprovalResponse.modified s)) :
    (executeTurnStreaming env m userInput images history0 t0 c0).1.history =
      history0 ++ (executeTurnStreaming env m userInput images history0 t0 c0).1.appendLog ∧
    (executeTurnStreaming env m userInput images history0 t0 c0).1.appendLog.head? =
      some (Message.user userInput images) := by
  obtain ⟨Δ, h1, h2⟩ := runTurnLoop_history_appendLog env m hnm m
    { events := [], history := history0 ++ [Message.user userInput images],
      appendLog := [Message.user userInput images], turnIn := 0, turnOut := 0,
      totalTokens := t0, totalCost := c0, modelCalls := 0, toolRounds := 0 }
  unfold executeTurnStreaming
  rw [h1, h2]
  simp

/-- Witness for the amended C5 at a concrete two-response turn with no
`modified` response. -/
theorem transcript_append_only_witness :
    (executeTurnStreaming exTwoResponseEnv 15 "what is 2+2" [] [] 0 0).1.history =
      [] ++ (executeTurnStreaming exTwoResponseEnv 15 "what is 2+2" [] [] 0 0).1.appendLog ∧
    (executeTurnStreaming exTwoResponseEnv 15 "what is 2+2" [] [] 0 0).1.appendLog.head? =
      some (Message.user "what is 2+2" []) :=
  transcript_append_only_without_modified_responses exTwoResponseEnv 15 "what is 2+2"
    [] [] 0 0 (by intro id s h; simp [exTwoResponseEnv] at h)

/-- C8 witness: the concrete always-requests-tools model at
`maxIterations = 3` makes exactly 3 model calls and 3 tool rounds and ends
with the max-iterations error event. -/
theorem turn_loop_bounded_witness :
    (executeTurnStreaming exAlwaysToolsEnv 3 "hi" [] [] 0 0).1.modelCalls = 3 ∧
    (executeTurnStreaming exAlwaysToolsEnv 3 "hi" [] [] 0 0).1.toolRounds = 3 ∧
    (executeTurnStreaming exAlwaysToolsEnv 3 "hi" [] [] 0 0).1.events.getLast? =
      some (StreamEvent.error "Max iterations (3) reached without completion") := by
  have h := turn_loop_bounded_by_max_iterations exAlwaysToolsEnv 3 "hi" [] [] 0 0
    (by decide) (by decide)
  exact ⟨h.1, h.2.1, h.2.2.2.trans (by decide)⟩

/-- C6 (amended): the permission check decides in this exact order —
`always` is allowed with no ApprovalRequest; `never` is denied with no
ApprovalRequest (and a denied call is never handed to the executor, so its
handler is never invoked); `ask` with the auto-approve-safe flag (read at
the check) and registered risk `safe` is allowed with no ApprovalRequest;
otherwise, if the tool is registered, an ApprovalRequest is issued and the
check resolves by the human response or timeout; for an unregistered tool in
that last case the check instead throws an unknown-tool error (the
counterexample) and issues no request. -/
theorem permission_check_decision_order
    (profile : AgentProfile) (reg : ToolRegistry) (flag : Bool)
    (resp : Option ApprovalResponse) (tc : ToolCall) :
    (permClassOf profile tc.name = PermissionLevel.always →
      PermissionManager.checkPermission profile reg flag resp tc =
        Except.ok { decision := PermDecision.allowed, promptIssued := false, call := tc }) ∧
    (permClassOf profile tc.name = PermissionLevel.never →
      PermissionManager.checkPermission profile reg flag resp tc =
        Except.ok { decision := PermDecision.denied, promptIssued := false, call := tc }) ∧
    (permClassOf profile tc.name = PermissionLevel.ask →
      flag = true → riskOf reg tc.name = RiskLevel.safe →
      PermissionManager.checkPermission profile reg flag resp tc =
        Except.ok { decision := PermDecision.allowed, promptIssued := false, call := tc }) ∧
    (permClassOf profile tc.name = PermissionLevel.ask →
      ¬ (flag = true ∧ riskOf reg tc.name = RiskLevel.safe) →
      ToolRegistry.hasTool reg tc.name = true →
      PermissionManager.checkPermission profile reg flag resp tc =
        Except.ok (PermissionManager.promptUser resp tc) ∧
      (PermissionManager.promptUser resp tc).promptIssued = true) ∧
    (∀ (approvals : String → Option ApprovalResponse)
       (responses : Nat → List StreamEvent) (calls : List ToolCall) (st : PhaseState),
      (∀ c0 ∈ st.approved, permClassOf profile c0.name ≠ PermissionLevel.never) →
      ∀ c ∈ (permissionLoop
          { registry := reg, profile := profile, autoApproveSafe := flag,
            approvals := approvals, responses := responses } calls st).1.approved,
        permClassOf profile c.name ≠ PermissionLevel.never) := by
  refine ⟨?_, ?_, ?_, ?_, ?_⟩
  · intro hp
    unfold PermissionManager.checkPermission
    rw [hp]
  · intro hp
    unfold PermissionManager.checkPermission
    rw [hp]
  · intro hp hflag hrisk
    unfold PermissionManager.checkPermission
    rw [hp]
    rw [if_pos ⟨hflag, hrisk⟩]
  · intro hp hcond hhas
    obtain ⟨t, ht⟩ : ∃ t, ToolRegistry.get reg tc.name = some t := by
      unfold ToolRegistry.hasTool at hhas
      exact Option.isSome_iff_exists.mp hhas
    constructor
    · unfold PermissionManager.checkPermission
      rw [hp, if_neg hcond, ht]
    · cases resp with
      | none => rfl
      | some r => cases r <;> rfl
  · intro approvals responses calls
    induction calls with
    | nil =>
      intro st h0 c hc
      rw [permissionLoop] at hc
      exact h0 c hc
    | cons tc0 rest ih =>
      intro st h0 c hc
      rw [permissionLoop] at hc
      cases hk : checkOf
          { registry := reg, profile := profile, autoApproveSafe := flag,
            approvals := approvals, responses := responses } tc0 with
      | error e =>
        rw [hk] at hc
        exact h0 c hc
      | ok cr =>
        rw [hk] at hc
        dsimp only at hc
        by_cases hd : cr.decision = PermDecision.denied
        · rw [if_pos hd] at hc
          exact ih _ (by intro c0 hc0; exact h0 c0 hc0) c hc
        · rw [if_neg hd] at hc
          refine ih _ ?_ c hc
          intro c0 hc0
          rcases List.mem_append.mp hc0 with hold | hnew
          · exact h0 c0 hold
          · have hc0cr : c0 = cr.call := by simpa using hnew
            subst hc0cr
            rw [(checkPermission_ok_call _ _ _ _ _ _ hk).2.1]
            intro hnev
            have hnever : PermissionManager.checkPermission profile reg flag
                (approvals tc0.id) tc0 =
                Except.ok { decision := PermDecision.denied, promptIssued := false,
                            call := tc0 } := by
              unfold PermissionManager.checkPermission
              rw [hnev]
            have hk2 : PermissionManager.checkPermission profile reg flag
                (approvals tc0.id) tc0 = Except.ok cr := hk
            rw [hnever] at hk2
            injection hk2 with hk2
            exact hd (by rw [← hk2])

/-- Witness for the amended C6: an always-class call is allowed with no
prompt, a never-class call is denied with no prompt, and a registered
ask-class call without auto-approval is resolved by the prompt. -/
theorem permission_check_decision_order_witness :
    PermissionManager.checkPermission exProfile [exCalcTool] false none
        { id := "w1", name := "calc", input := "x" } =
      Except.ok { decision := PermDecision.allowed, promptIssued := false,
                  call := { id := "w1", name := "calc", input := "x" } } ∧
    PermissionManager.checkPermission exMixedEnv.profile [exCalcTool, exEditTool] false none
        { id := "w2", name := "edit", input := "x" } =
      Except.ok { decision := PermDecision.denied, promptIssued := false,
                  call := { id := "w2", name := "edit", input := "x" } } ∧
    PermissionManager.checkPermission exEmptyProfile [exEditTool] false
        (some ApprovalResponse.approved) { id := "w3", name := "edit", input := "x" } =
      Except.ok { decision := PermDecision.allowed, promptIssued := true,
                  call := { id := "w3", name := "edit", input := "x" } } := by
  refine ⟨?_, ?_, ?_⟩
  · exact (permission_check_decision_order exProfile [exCalcTool] false none
      { id := "w1", name := "calc", input := "x" }).1 (by decide)
  · exact (permission_check_decision_order exMixedEnv.profile [exCalcTool, exEditTool] false none
      { id := "w2", name := "edit", input := "x" }).2.1 (by decide)
  · exact ((permission_check_decision_order exEmptyProfile [exEditTool] false
      (some ApprovalResponse.approved) { id := "w3", name := "edit", input := "x" }).2.2.2.1
      (by decide) (by decide) (by decide)).1

/-- Auxiliary: the executor stamps the call id on the result. -/
theorem executeToolCall_id (reg : ToolRegistry) (tc : ToolCall) :
    (ToolExecutor.executeToolCall reg tc).tool_call_id = tc.id := by
  unfold ToolExecutor.executeToolCall
  cases ToolRegistry.execute reg tc.name tc.input with
  | ok v => cases v <;> rfl
  | error msg => rfl

/-- Auxiliary: the per-call round result carries the call id. -/
theorem roundResultOf_id (env : TurnEnv) (tc : ToolCall) :
    (roundResultOf env tc).tool_call_id = tc.id := by
  unfold roundResultOf
  by_cases hd : decisionD env tc = PermDecision.denied
  · rw [if_pos hd]
    show (procCallD env tc).id = tc.id
    exact procCallD_id env tc
  · rw [if_neg hd, executeToolCall_id]
    exact procCallD_id env tc

/-- Auxiliary: in an association list with distinct keys, `find?` by key
returns the unique entry. -/
theorem find?_key_of_nodup (l : List (String × ToolResult))
    (hnd : (l.map Prod.fst).Nodup) (k : String) (r : ToolResult)
    (hm : (k, r) ∈ l) :
    l.find? (fun e => decide (e.1 = k)) = some (k, r) := by
  induction l with
  | nil => cases hm
  | cons a rest ih =>
    by_cases hk : a.1 = k
    · have ha : a = (k, r) := by
        rcases List.mem_cons.mp hm with h | h
        · exact h.symm
        · exfalso
          have hkm : k ∈ rest.map Prod.fst := List.mem_map.mpr ⟨(k, r), h, rfl⟩
          rw [← hk] at hkm
          exact (List.nodup_cons.mp (by simpa using hnd)).1 hkm
    
      rw [List.find?_cons_of_pos _ (by simp [hk]), ha]
    · rw [List.find?_cons_of_neg _ (by simp [hk])]
      refine ih (List.nodup_cons.mp (by simpa using hnd)).2 ?_
      rcases List.mem_cons.mp hm with h | h
      · exact absurd (congrArg Prod.fst h.symm) hk
      · exact h

/-- Auxiliary: `Map.get` on a result map with distinct keys returns the
entry stored under the key. -/
theorem mapGet_eq_of_nodup (l : List (String × ToolResult))
    (hnd : (l.map Prod.fst).Nodup) (k : String) (r : ToolResult)
    (hm : (k, r) ∈ l) :
    mapGet l k = some r := by
  unfold mapGet
  rw [find?_key_of_nodup l.reverse
    (by rw [List.map_reverse]; exact List.nodup_reverse.mpr hnd) k r
    (List.mem_reverse.mpr hm)]
  rfl

/-- Auxiliary: zipping a list with its own image. -/
theorem zip_self_map {α β : Type} (l : List α) (f : α → β) :
    l.zip (l.map f) = l.map (fun a => (a, f a)) := by
  induction l with
  | nil => rfl
  | cons a rest ih => simp [ih]

/-- Auxiliary: reading the result map back over the processed calls yields,
per call in order, its denied or executed result — given distinct call ids. -/
theorem mergeResults_closed (env : TurnEnv) (calls : List ToolCall)
    (hnd : (calls.map (fun tc => tc.id)).Nodup) :
    mergeResults
      { processed := calls.map (procCallD env),
        denied := (calls.filter fun tc => decide (decisionD env tc = PermDecision.denied)).map
          (fun tc => (procCallD env tc, deniedResult (procCallD env tc))),
        approved := (calls.filter fun tc => decide (decisionD env tc = PermDecision.allowed)).map
          (procCallD env) }
      (ToolExecutor.executeParallel env.registry
        ((calls.filter fun tc => decide (decisionD env tc = PermDecision.allowed)).map
          (procCallD env))) =
    calls.map (roundResultOf env) := by
  have hPA : ∀ tc ∈ calls,
      (fun tc => decide (decisionD env tc = PermDecision.allowed)) tc =
      (fun tc => !(decide (decisionD env tc = PermDecision.denied))) tc := by
    intro tc _
    cases hd : decisionD env tc <;> simp [hd]
  have hperm : List.Perm
      ((calls.filter fun tc => decide (decisionD env tc = PermDecision.denied)) ++
       (calls.filter fun tc => decide (decisionD env tc = PermDecision.allowed))) calls := by
    rw [List.filter_congr hPA]
    exact List.filter_append_perm _ calls
  unfold mergeResults ToolExecutor.executeParallel
  dsimp only
  set entries :=
    ((calls.filter fun tc => decide (decisionD env tc = PermDecision.denied)).map
        (fun tc => (procCallD env tc, deniedResult (procCallD env tc)))).map
      (fun p => (p.1.id, p.2)) ++
    (((calls.filter fun tc => decide (decisionD env tc = PermDecision.allowed)).map
        (procCallD env)).map
      (ToolExecutor.executeToolCall env.registry)).map
      (fun r => (r.tool_call_id, r)) with hE
  have hkeys : entries.map Prod.fst =
      (calls.filter fun tc => decide (decisionD env tc = PermDecision.denied)).map
        (fun tc => tc.id) ++
      (calls.filter fun tc => decide (decisionD env tc = PermDecision.allowed)).map
        (fun tc => tc.id) := by
    rw [hE]
    simp only [List.map_append, List.map_map]
    congr 1
    · exact List.map_congr_left (fun tc _ => by simp [Function.comp, procCallD_id])
    · exact List.map_congr_left
        (fun tc _ => by simp [Function.comp, executeToolCall_id, procCallD_id])
  have hkeysnd : (entries.map Prod.fst).Nodup := by
    rw [hkeys, ← List.map_append]
    exact (hperm.map (fun tc => tc.id)).nodup_iff.mpr hnd
  have hlookup : ∀ tc ∈ calls, mapGet entries tc.id = some (roundResultOf env tc) := by
    intro tc htc
    cases hd : decisionD env tc with
    | denied =>
      have hm : (tc.id, deniedResult (procCallD env tc)) ∈ entries := by
        rw [hE]
        refine List.mem_append_left _ ?_
        exact List.mem_map.mpr
          ⟨(procCallD env tc, deniedResult (procCallD env tc)),
           List.mem_map.mpr ⟨tc, List.mem_filter.mpr ⟨htc, by simp [hd]⟩, rfl⟩,
           by simp [procCallD_id]⟩
      rw [mapGet_eq_of_nodup entries hkeysnd tc.id _ hm]
      unfold roundResultOf
      rw [if_pos hd]
    | allowed =>
      have hm : (tc.id, ToolExecutor.executeToolCall env.registry (procCallD env tc)) ∈
          entries := by
        rw [hE]
        refine List.mem_append_right _ ?_
        exact List.mem_map.mpr
          ⟨ToolExecutor.executeToolCall env.registry (procCallD env tc),
           List.mem_map.mpr
             ⟨procCallD env tc,
              List.mem_map.mpr ⟨tc, List.mem_filter.mpr ⟨htc, by simp [hd]⟩, rfl⟩, rfl⟩,
           by simp [executeToolCall_id, procCallD_id]⟩
      rw [mapGet_eq_of_nodup entries hkeysnd tc.id _ hm]
      unfold roundResultOf
      rw [if_neg (by simp [hd])]
  rw [List.map_map]
  refine List.map_congr_left ?_
  intro tc htc
  show (mapGet entries (procCallD env tc).id).getD (undefinedResult (procCallD env tc)) =
    roundResultOf env tc
  rw [procCallD_id, hlookup tc htc]
  rfl

/-- Auxiliary: closed description of a round in which every check resolves:
the results are the per-call denied/executed results in original call order,
and the events mirror them pairwise. -/
theorem processToolRound_ok_spec (env : TurnEnv) (calls : List ToolCall)
    (hok : ∀ tc ∈ calls, (checkOf env tc).isOk = true)
    (hnd : (calls.map (fun tc => tc.id)).Nodup) :
    (processToolRound env calls).results = calls.map (roundResultOf env) ∧
    (processToolRound env calls).events =
      calls.map (fun tc => StreamEvent.tool_result tc.id tc.name (roundResultOf env tc)) ∧
    (processToolRound env calls).thrown = none := by
  unfold processToolRound
  rw [permissionLoop_ok_closed env calls hok]
  dsimp only
  simp only [List.nil_append]
  refine ⟨mergeResults_closed env calls hnd, ?_, by trivial⟩
  rw [mergeResults_closed env calls hnd, List.zip_map', List.map_map]
  refine List.map_congr_left ?_
  intro tc htc
  simp [Function.comp, procCallD_id, procCallD_name]

/-- C4: for a model response with N tool calls (with the per-call-unique ids
the data model guarantees) whose permission checks all resolve, the round
produces exactly one ToolResult per call; the `tool` message results and the
per-call `tool_result` events are index-aligned with the original call list
— independent of which calls were denied, of the approval responses, and of
execution completion order (the executor joins all settled results back by
input index). -/
theorem tool_results_preserve_original_call_order
    (env : TurnEnv) (toolCalls : List ToolCall)
    (hnd : (toolCalls.map (fun tc => tc.id)).Nodup)
    (hok : ∀ tc ∈ toolCalls, (checkOf env tc).isOk = true) :
    (processToolRound env toolCalls).thrown = none ∧
    (processToolRound env toolCalls).results.length = toolCalls.length ∧
    (processToolRound env toolCalls).events.length = toolCalls.length ∧
    (∀ (i : Nat) (tc : ToolCall), toolCalls[i]? = some tc →
      (processToolRound env toolCalls).results[i]? = some (roundResultOf env tc) ∧
      (roundResultOf env tc).tool_call_id = tc.id ∧
      (processToolRound env toolCalls).events[i]? =
        some (StreamEvent.tool_result tc.id tc.name (roundResultOf env tc))) := by
  obtain ⟨hres, hevts, hthr⟩ := processToolRound_ok_spec env toolCalls hok hnd
  refine ⟨hthr, by rw [hres]; simp, by rw [hevts]; simp, ?_⟩
  intro i tc hi
  refine ⟨?_, roundResultOf_id env tc, ?_⟩
  · rw [hres, List.getElem?_map, hi]
    rfl
  · rw [hevts, List.getElem?_map, hi]
    rfl

/-- Witness for C4 at a concrete two-call round (first call denied by a
`never` profile class, second always allowed). -/
theorem tool_results_order_witness :
    (processToolRound exMixedEnv exMixedCalls).results.length = 2 ∧
    (processToolRound exMixedEnv exMixedCalls).results[0]? =
      some (roundResultOf exMixedEnv { id := "x1", name := "edit", input := "i1" }) ∧
    (processToolRound exMixedEnv exMixedCalls).events[1]? =
      some (StreamEvent.tool_result "x2" "calc"
        (roundResultOf exMixedEnv { id := "x2", name := "calc", input := "i2" })) := by
  have h := tool_results_preserve_original_call_order exMixedEnv exMixedCalls
    (by decide) (by decide)
  refine ⟨h.2.1.trans (by decide), ?_, ?_⟩
  · exact (h.2.2.2 0 { id := "x1", name := "edit", input := "i1" } (by decide)).1
  · exact (h.2.2.2 1 { id := "x2", name := "calc", input := "i2" } (by decide)).2.2

/-- Auxiliary: a block looked up in the map is stored in it. -/
theorem blocksGet_mem (blocks : List (Nat × ContentBlockState)) (i : Nat)
    (b : ContentBlockState) (h : blocksGet blocks i = some b) :
    ∃ k, (k, b) ∈ blocks := by
  unfold blocksGet at h
  cases hf : (blocks.reverse).find? (fun p => decide (p.1 = i)) with
  | none => rw [hf] at h; cases h
  | some p =>
    rw [hf] at h
    injection h with h
    refine ⟨p.1, ?_⟩
    have hp := List.mem_of_find?_eq_some hf
    rw [← h]
    exact List.mem_reverse.mp hp

/-- Auxiliary: one-step unfolding of the provider-event fold. -/
theorem streamFold_cons (jv : String → Bool) (blocks : List (Nat × ContentBlockState))
    (ev : ProviderEvent) (rest : List ProviderEvent) :
    streamFold jv blocks (ev :: rest) =
      ((streamFold jv (streamStep jv blocks ev).1 rest).1,
       (streamStep jv blocks ev).2 ++ (streamFold jv (streamStep jv blocks ev).1 rest).2) := by
  rcases hs : streamStep jv blocks ev with ⟨b1, o1⟩
  rw [streamFold, hs]

/-- Auxiliary: one stream step over a block map with no tool-use block, fed
an event that is not a tool-use block start, yields only text or usage
events and keeps the map free of tool-use blocks. -/
theorem streamStep_shape (jv : String → Bool) (blocks : List (Nat × ContentBlockState))
    (ev : ProviderEvent)
    (hev : ∀ i id name, ev ≠ ProviderEvent.blockStart i BlockType.tool_useB id name)
    (hbl : ∀ p ∈ blocks, p.2.btype ≠ BlockType.tool_useB) :
    (∀ e ∈ (streamStep jv blocks ev).2,
      (∃ c, e = StreamEvent.text c) ∨ ∃ a b, e = StreamEvent.usage a b) ∧
    (∀ p ∈ (streamStep jv blocks ev).1, p.2.btype ≠ BlockType.tool_useB) := by
  cases ev with
  | blockStart i t id name =>
    have ht : t ≠ BlockType.tool_useB := by
      intro hcon
      exact hev i id name (by rw [hcon])
    constructor
    · intro e he
      simp only [streamStep] at he
      cases he
    · intro p hp
      simp only [streamStep, blocksSet] at hp
      rcases List.mem_append.mp hp with hold | hnew
      · exact hbl p hold
      · rw [List.mem_singleton.mp hnew]
        exact ht
  | textDelta i s =>
    cases hb : blocksGet blocks i with
    | none =>
      constructor
      · intro e he
        simp only [streamStep, hb] at he
        cases he
      · intro p hp
        simp only [streamStep, hb] at hp
        exact hbl p hp
    | some b =>
      constructor
      · intro e he
        simp only [streamStep, hb] at he
        rw [List.mem_singleton.mp he]
        exact Or.inl ⟨s, rfl⟩
      · intro p hp
        simp only [streamStep, hb, blocksSet] at hp
        rcases List.mem_append.mp hp with hold | hnew
        · exact hbl p hold
        · rw [List.mem_singleton.mp hnew]
          obtain ⟨k, hk⟩ := blocksGet_mem blocks i b hb
          exact hbl (k, b) hk
  | inputJsonDelta i s =>
    cases hb : blocksGet blocks i with
    | none =>
      constructor
      · intro e he
        simp only [streamStep, hb] at he
        cases he
      · intro p hp
        simp only [streamStep, hb] at hp
        exact hbl p hp
    | some b =>
      constructor
      · intro e he
        simp only [streamStep, hb] at he
        cases he
      · intro p hp
        simp only [streamStep, hb, blocksSet] at hp
        rcases List.mem_append.mp hp with hold | hnew
        · exact hbl p hold
        · rw [List.mem_singleton.mp hnew]
          obtain ⟨k, hk⟩ := blocksGet_mem blocks i b hb
          exact hbl (k, b) hk
  | blockStop i =>
    cases hb : blocksGet blocks i with
    | none =>
      constructor
      · intro e he
        simp only [streamStep, hb] at he
        cases he
      · intro p hp
        simp only [streamStep, hb] at hp
        exact hbl p hp
    | some b =>
      have hbt : b.btype ≠ BlockType.tool_useB := by
        obtain ⟨k, hk⟩ := blocksGet_mem blocks i b hb
        exact hbl (k, b) hk
      have hcond : ¬ (b.btype = BlockType.tool_useB ∧ b.id ≠ "" ∧ b.name ≠ "") :=
        fun hcon => hbt hcon.1
      constructor
      · intro e he
        simp only [streamStep, hb, if_neg hcond] at he
        cases he
      · intro p hp
        simp only [streamStep, hb, if_neg hcond] at hp
        exact hbl p hp
  | messageStop a b =>
    constructor
    · intro e he
      simp only [streamStep] at he
      rw [List.mem_singleton.mp he]
      exact Or.inr ⟨a, b, rfl⟩
    · intro p hp
      simp only [streamStep] at hp
      exact hbl p hp

/-- Auxiliary: folding provider events that contain no tool-use block start
over a map with no tool-use block yields only text and usage events. -/
theorem streamFold_shape (jv : String → Bool) :
    ∀ (evs : List ProviderEvent) (blocks : List (Nat × ContentBlockState)),
      (∀ ev ∈ evs, ∀ i id name, ev ≠ ProviderEvent.blockStart i BlockType.tool_useB id name) →
      (∀ p ∈ blocks, p.2.btype ≠ BlockType.tool_useB) →
      ∀ e ∈ (streamFold jv blocks evs).2,
        (∃ c, e = StreamEvent.text c) ∨ ∃ a b, e = StreamEvent.usage a b := by
  intro evs
  induction evs with
  | nil =>
    intro blocks _ _ e he
    cases he
  | cons ev rest ih =>
    intro blocks hev hbl e he
    rw [streamFold_cons] at he
    obtain ⟨hstep, hmap⟩ := streamStep_shape jv blocks ev
      (hev ev (List.mem_cons_self ev rest)) hbl
    rcases List.mem_append.mp he with h1 | h2
    · exact hstep e h1
    · exact ih (streamStep jv blocks ev).1
        (fun ev2 hm => hev ev2 (List.mem_cons_of_mem _ hm)) hmap e h2

/-- Auxiliary: scanning a stream of only text and usage events collects no
tool calls and forwards only text events (beyond what the accumulator
already held). -/
theorem scanFold_text_usage :
    ∀ (evs : List StreamEvent) (acc : StreamScan),
      (∀ e ∈ evs, (∃ c, e = StreamEvent.text c) ∨ ∃ a b, e = StreamEvent.usage a b) →
      (evs.foldl scanStepEvent acc).toolCalls = acc.toolCalls ∧
      (∀ e ∈ (evs.foldl scanStepEvent acc).forwarded,
        e ∈ acc.forwarded ∨ ∃ c, e = StreamEvent.text c) := by
  intro evs
  induction evs with
  | nil =>
    intro acc _
    exact ⟨rfl, fun e he => Or.inl he⟩
  | cons ev rest ih =>
    intro acc h
    have htail : ∀ e ∈ rest, (∃ c, e = StreamEvent.text c) ∨ ∃ a b, e = StreamEvent.usage a b :=
      fun e he => h e (List.mem_cons_of_mem _ he)
    rcases h ev (List.mem_cons_self ev rest) with ⟨c, rfl⟩ | ⟨a, b, rfl⟩
    · obtain ⟨h1, h2⟩ := ih (scanStepEvent acc (StreamEvent.text c)) htail
      refine ⟨h1, ?_⟩
      intro e he
      rcases h2 e he with hin | htext
      · rcases List.mem_append.mp hin with hold | hnew
        · exact Or.inl hold
        · exact Or.inr ⟨c, List.mem_singleton.mp hnew⟩
      · exact Or.inr htext
    · obtain ⟨h1, h2⟩ := ih (scanStepEvent acc (StreamEvent.usage a b)) htail
      exact ⟨h1, h2⟩

/-- C3 (amended): when the provider suffers a streaming fault (not a
cancellation) after delivering no tool-use block, the turn forwards exactly
one `error` event and then emits the terminal `usage` event as its very next
and last event; the turn makes exactly one model call and no tool round, and
the generator completes normally, leaving the session usable (the Manager
then returns it to idle, as proved for the thrown case in the C9 theorem). -/
theorem provider_fault_emits_single_error_then_terminal_usage
    (jsonValid : String → Bool) (ps : ProviderStream) (e : String)
    (env : TurnEnv) (m : Nat) (userInput : String) (images : List String)
    (history0 : List Message) (t0 : Nat) (c0 : ℚ)
    (hm : 0 < m)
    (henv : env.responses 0 = streamWithTools jsonValid ps)
    (hf : ps.fault = some e)
    (hnb : ∀ ev ∈ ps.delivered, ∀ i id name,
      ev ≠ ProviderEvent.blockStart i BlockType.tool_useB id name) :
    (executeTurnStreaming env m userInput images history0 t0 c0).2 = TurnOutcome.completed ∧
    (executeTurnStreaming env m userInput images history0 t0 c0).1.modelCalls = 1 ∧
    (executeTurnStreaming env m userInput images history0 t0 c0).1.toolRounds = 0 ∧
    (executeTurnStreaming env m userInput images history0 t0 c0).1.events.countP
      (fun ev => match ev with | StreamEvent.error _ => true | _ => false) = 1 ∧
    ((executeTurnStreaming env m userInput images history0 t0 c0).1.events.dropLast).getLast? =
      some (StreamEvent.error (if e = "" then "Streaming failed" else e)) ∧
    (executeTurnStreaming env m userInput images history0 t0 c0).1.events.getLast? =
      some (StreamEvent.usage
        (executeTurnStreaming env m userInput images history0 t0 c0).1.turnIn
        (executeTurnStreaming env m userInput images history0 t0 c0).1.turnOut) := by
  cases m with
  | zero => omega
  | succ fuel =>
  have hstream : streamWithTools jsonValid ps =
      (streamFold jsonValid [] ps.delivered).2 ++
      [StreamEvent.error (if e = "" then "Streaming failed" else e)] := by
    unfold streamWithTools
    rw [hf]
  have hout : ∀ ev2 ∈ (streamFold jsonValid [] ps.delivered).2,
      (∃ c, ev2 = StreamEvent.text c) ∨ ∃ a b, ev2 = StreamEvent.usage a b :=
    streamFold_shape jsonValid ps.delivered [] hnb (by intro p hp; cases hp)
  have hscanfold := scanFold_text_usage (streamFold jsonValid [] ps.delivered).2
    { forwarded := [], toolCalls := [], turnText := "", inTok := 0, outTok := 0 } hout
  have htext : ∀ ev2 ∈ (scanModelStream (streamFold jsonValid [] ps.delivered).2).forwarded,
      ∃ c, ev2 = StreamEvent.text c := by
    intro ev2 he
    rcases hscanfold.2 ev2 he with h0 | h
    · cases h0
    · exact h
  have hscan_eq : scanModelStream (env.responses 0) =
      { scanModelStream (streamFold jsonValid [] ps.delivered).2 with
        forwarded := (scanModelStream (streamFold jsonValid [] ps.delivered).2).forwarded ++
          [StreamEvent.error (if e = "" then "Streaming failed" else e)] } := by
    rw [henv, hstream]
    unfold scanModelStream
    rw [List.foldl_append]
    rfl
  have hsc : (scanModelStream (env.responses 0)).toolCalls = [] := by
    rw [hscan_eq]
    exact hscanfold.1
  unfold executeTurnStreaming
  rw [runTurnLoop_succ_no_tools env (fuel + 1) fuel _ hsc]
  dsimp only
  refine ⟨rfl, rfl, rfl, ?_, ?_, ?_⟩
  · rw [hscan_eq]
    dsimp only
    simp only [List.nil_append, List.countP_append]
    rw [List.countP_eq_zero.mpr (by
      intro ev2 he
      obtain ⟨c, rfl⟩ := htext ev2 he
      simp)]
    rfl
  · rw [List.dropLast_concat, hscan_eq]
    dsimp only
    simp [List.getLast?_concat]
  · exact List.getLast?_concat _

/-- Witness for the amended C3 at the concrete fault `boom` with empty
delivered prefix. -/
theorem provider_fault_witness :
    exFaultRun.1.events.countP
      (fun ev => match ev with | StreamEvent.error _ => true | _ => false) = 1 ∧
    (exFaultRun.1.events.dropLast).getLast? = some (StreamEvent.error "boom") ∧
    exFaultRun.1.events.getLast? =
      some (StreamEvent.usage exFaultRun.1.turnIn exFaultRun.1.turnOut) := by
  have h := provider_fault_emits_single_error_then_terminal_usage (fun _ => true)
    { delivered := [], fault := some "boom" } "boom" exFaultEnv 15 "hi" [] [] 0 0
    (by decide) rfl rfl (by intro ev hev; cases hev)
  exact ⟨h.2.2.2.1, h.2.2.2.2.1.trans (by decide), h.2.2.2.2.2⟩

/-- Auxiliary: replacing the session stored under a live id keeps it
retrievable. -/
theorem lookupAgent_updateAgent (l : List (String × AgentSessionState)) (id : String)
    (s : AgentSessionState) (a : AgentSessionState)
    (h : lookupAgent l id = some a) :
    lookupAgent (updateAgent l id s) id = some s := by
  induction l with
  | nil => simp [lookupAgent] at h
  | cons p rest ih =>
    by_cases hp : p.1 = id
    · unfold updateAgent lookupAgent
      simp only [List.map_cons, if_pos hp]
      rw [List.find?_cons_of_pos _ (by simp)]
      rfl
    · unfold lookupAgent at h
      unfold updateAgent lookupAgent
      simp only [List.map_cons, if_neg hp]
      rw [List.find?_cons_of_neg _ (by simp [hp])] at h
      rw [List.find?_cons_of_neg _ (by simp [hp])]
      exact ih h

/-- C9 (amended): an unknown tool name reaching the executor (an
always-allowed or auto-approved call) is converted inside the turn loop into
a failed ToolResult carrying the unknown-tool message; but when such a
call's permission class resolves to `ask` and the gate must build the
ApprovalRequest's tool-definition snapshot, the check throws, the exception
escapes the turn loop, and it is the Manager's streaming wrapper that
catches it, emits it as a single final `error` StreamEvent plus an
agent-error notification, returns the session to idle, and keeps the
session alive (nothing is terminated or persisted). -/
theorem unknown_tool_error_caught_by_manager :
    (∀ (reg : ToolRegistry) (tc : ToolCall), ToolRegistry.hasTool reg tc.name = false →
      ToolExecutor.executeToolCall reg tc =
        { tool_call_id := tc.id, success := false,
          error := some ("Unknown tool: \"" ++ tc.name ++ "\"") }) ∧
    (∀ (profile : AgentProfile) (reg : ToolRegistry) (flag : Bool)
       (resp : Option ApprovalResponse) (tc : ToolCall),
      ToolRegistry.hasTool reg tc.name = false →
      permClassOf profile tc.name = PermissionLevel.ask →
      PermissionManager.checkPermission profile reg flag resp tc =
        Except.error ("Unknown tool: " ++ tc.name)) ∧
    (∀ (approvals : String → Option ApprovalResponse)
       (responses : Nat → List StreamEvent) (mst : AgentManagerState)
       (agentId message : String) (images : List String)
       (agent : AgentSessionState) (ts : TurnState) (msg : String),
      lookupAgent mst.activeAgents agentId = some agent →
      executeTurnStreaming
          { registry := agent.registry, profile := agent.profile,
            autoApproveSafe := agent.autoApproveSafe, approvals := approvals,
            responses := responses } agent.maxIterations message images
          agent.conversationHistory agent.totalTokens agent.totalCost =
        (ts, TurnOutcome.thrown msg) →
      (AgentManager.sendMessageStreaming approvals responses mst agentId
          message images).events = ts.events ++ [StreamEvent.error msg] ∧
      (AgentManager.sendMessageStreaming approvals responses mst agentId
          message images).notifications =
        [ManagerNotification.statusChange agentId AgentStatus.thinking,
         ManagerNotification.statusChange agentId AgentStatus.idle,
         ManagerNotification.agentError agentId msg] ∧
      (AgentManager.sendMessageStreaming approvals responses mst agentId
          message images).state.saved = mst.saved ∧
      ∃ a2, lookupAgent (AgentManager.sendMessageStreaming approvals responses mst
          agentId message images).state.activeAgents agentId = some a2 ∧
        a2.status = AgentStatus.idle) := by
  refine ⟨?_, ?_, ?_⟩
  · intro reg tc h
    have hg : ToolRegistry.get reg tc.name = none := by
      unfold ToolRegistry.hasTool at h
      cases hg2 : ToolRegistry.get reg tc.name with
      | none => rfl
      | some t => rw [hg2] at h; cases h
    have hne : ("Unknown tool: \"" ++ tc.name ++ "\"") ≠ "" := by
      intro h0
      have hlen := congrArg String.length h0
      rw [String.length_append, String.length_append] at hlen
      have h15 : ("Unknown tool: \"").length = 15 := rfl
      have h1 : ("\"").length = 1 := rfl
      have h0l : ("").length = 0 := rfl
      omega
    unfold ToolExecutor.executeToolCall ToolRegistry.execute
    rw [hg]
    dsimp only
    rw [if_neg hne]
  · intro profile reg flag resp tc h hp
    have hg : ToolRegistry.get reg tc.name = none := by
      unfold ToolRegistry.hasTool at h
      cases hg2 : ToolRegistry.get reg tc.name with
      | none => rfl
      | some t => rw [hg2] at h; cases h
    have hr : riskOf reg tc.name = RiskLevel.moderate := by
      unfold riskOf
      rw [hg]
    unfold PermissionManager.checkPermission
    rw [hp, if_neg (by rw [hr]; intro hcon; cases hcon.2), hg]
  · intro approvals responses mst agentId message images agent ts msg hl hturn
    unfold AgentManager.sendMessageStreaming
    rw [hl]
    dsimp only
    rw [hturn]
    dsimp only
    refine ⟨rfl, rfl, rfl, ?_⟩
    exact ⟨_, lookupAgent_updateAgent mst.activeAgents agentId _ agent hl, rfl⟩

/-- Witness for the amended C9: the unknown-tool turn throws, and the
manager surfaces the message as the final error event, persists nothing,
and keeps the session live and idle. -/
theorem unknown_tool_manager_witness :
    (AgentManager.sendMessageStreaming exGhostEnv.approvals exGhostEnv.responses
        exManagerState "s1" "hi" []).events.getLast? =
      some (StreamEvent.error "Unknown tool: ghost") ∧
    (AgentManager.sendMessageStreaming exGhostEnv.approvals exGhostEnv.responses
        exManagerState "s1" "hi" []).state.saved = [] ∧
    ∃ a2, lookupAgent (AgentManager.sendMessageStreaming exGhostEnv.approvals
        exGhostEnv.responses exManagerState "s1" "hi" []).state.activeAgents "s1" =
      some a2 ∧ a2.status = AgentStatus.idle := by
  have hx : (executeTurnStreaming
      { registry := exSession.registry, profile := exSession.profile,
        autoApproveSafe := exSession.autoApproveSafe,
        approvals := exGhostEnv.approvals, responses := exGhostEnv.responses }
      exSession.maxIterations "hi" [] exSession.conversationHistory
      exSession.totalTokens exSession.totalCost).2 =
      TurnOutcome.thrown "Unknown tool: ghost" := by decide
  have hturn : executeTurnStreaming
      { registry := exSession.registry, profile := exSession.profile,
        autoApproveSafe := exSession.autoApproveSafe,
        approvals := exGhostEnv.approvals, responses := exGhostEnv.responses }
      exSession.maxIterations "hi" [] exSession.conversationHistory
      exSession.totalTokens exSession.totalCost =
      ((executeTurnStreaming
      { registry := exSession.registry, profile := exSession.profile,
        autoApproveSafe := exSession.autoApproveSafe,
        approvals := exGhostEnv.approvals, responses := exGhostEnv.responses }
      exSession.maxIterations "hi" [] exSession.conversationHistory
      exSession.totalTokens exSession.totalCost).1,
        TurnOutcome.thrown "Unknown tool: ghost") := by
    rw [← hx]
  have h := (unknown_tool_error_caught_by_manager).2.2 exGhostEnv.approvals
    exGhostEnv.responses exManagerState "s1" "hi" [] exSession _ "Unknown tool: ghost"
    rfl hturn
  refine ⟨?_, h.2.2.1.trans rfl, h.2.2.2⟩
  rw [h.1]
  exact List.getLast?_concat _
